import Mathlib

/-!
Verification development for the ReadyForUs questionnaire-content scripts.

The Python sources are shallowly embedded over `List Char` (one `Chars`
value per Python string, one `Chars` per text line).  Python `dict`s are
embedded as insertion-ordered association lists with update-in-place
semantics (`dictUpdate` / `dictGet`), Python exceptions as `Except PyErr`,
and Python regular expressions as hand-rolled deterministic matchers that
reproduce the backtracking behaviour of the concrete patterns appearing in
the sources.
-/

/-- A Python string / line of text, embedded as its list of characters. -/
abbrev Chars := List Char

instance (priority := 2000) {α : Type} [DecidableEq α] :
    DecidableEq (Option α) := fun x y =>
  match x, y with
  | some a, some b =>
    if h : a = b then .isTrue (by rw [h])
    else .isFalse (fun hh => h (Option.some.inj hh))
  | none, none => .isTrue rfl
  | some _, none => .isFalse (fun hh => Option.noConfusion hh)
  | none, some _ => .isFalse (fun hh => Option.noConfusion hh)

instance (priority := 2000) {α β : Type} [DecidableEq α] [DecidableEq β] :
    DecidableEq (α × β) := fun x y =>
  match x, y with
  | (a, b), (c, d) =>
    if h : a = c ∧ b = d then
      .isTrue (by rcases h with ⟨h1, h2⟩; rw [h1, h2])
    else
      .isFalse (fun hh => h (by cases hh; exact ⟨rfl, rfl⟩))

instance {ε α : Type} [DecidableEq ε] [DecidableEq α] :
    DecidableEq (Except ε α) := fun x y =>
  match x, y with
  | .ok a, .ok b =>
    if h : a = b then .isTrue (by rw [h])
    else .isFalse (fun hh => h (Except.ok.inj hh))
  | .error a, .error b =>
    if h : a = b then .isTrue (by rw [h])
    else .isFalse (fun hh => h (Except.error.inj hh))
  | .ok _, .error _ => .isFalse (fun hh => Except.noConfusion hh)
  | .error _, .ok _ => .isFalse (fun hh => Except.noConfusion hh)

/-- The only exception kind the embedded code can raise
(`IndexError` from `clean_value` on an all-whitespace argument). -/
inductive PyErr where
  | indexError
deriving DecidableEq, Repr, Inhabited

/-- The characters Python's `str.strip()` and the regex class `\s`
treat as whitespace (ASCII range, which covers all repository inputs). -/
def isPySpace (c : Char) : Bool :=
  c = ' ' ∨ c = '\t' ∨ c = '\n' ∨ c = '\r' ∨ c = '\x0b' ∨ c = '\x0c'

/-- Python `str.lstrip()`. -/
def pyLStrip (l : Chars) : Chars := l.dropWhile isPySpace

/-- Python `str.rstrip()`. -/
def pyRStrip (l : Chars) : Chars := (l.reverse.dropWhile isPySpace).reverse

/-- Python `str.strip()`. -/
def pyStrip (l : Chars) : Chars := pyRStrip (pyLStrip l)

/-- Python `str.lower()` (ASCII case mapping, which covers all inputs). -/
def pyLower (l : Chars) : Chars := l.map Char.toLower

/-- Auxiliary accumulator loop for `pySplitWs`. -/
def splitWsAux : Chars → Chars → List Chars
  | [], acc => if acc = [] then [] else [acc.reverse]
  | c :: rest, acc =>
    if isPySpace c then
      (if acc = [] then [] else [acc.reverse]) ++ splitWsAux rest []
    else splitWsAux rest (c :: acc)

/-- Python `str.split()` with no argument: split on whitespace runs,
dropping empty pieces. -/
def pySplitWs (l : Chars) : List Chars := splitWsAux l []

/-- Auxiliary accumulator loop for `splitOnComma`. -/
def splitCommaAux : Chars → Chars → List Chars
  | [], acc => [acc.reverse]
  | c :: rest, acc =>
    if c = ',' then acc.reverse :: splitCommaAux rest [] else splitCommaAux rest (c :: acc)

/-- Python `str.split(',')`: split at every comma, keeping empty pieces. -/
def splitOnComma (l : Chars) : List Chars := splitCommaAux l []

/-- Whether `sub` occurs as a contiguous substring of the second argument
(Python's `in` operator on strings). -/
def containsSub (sub : Chars) : Chars → Bool
  | [] => sub.isPrefixOf ([] : Chars)
  | c :: rest => sub.isPrefixOf (c :: rest) || containsSub sub rest

/-- Characters kept by the regex substitution `re.sub(r'[^a-z0-9_]', '', _)`. -/
def keepKeyChar (c : Char) : Bool := c.isLower || c.isDigit || c = '_'

/-- Regex word characters (`\w`, ASCII range). -/
def isWordCh (c : Char) : Bool := c.isAlphanum || c = '_'

/-- Python `str.strip(chars)`: remove any of the given characters from
both ends. -/
def pyStripChars (chs : Chars) (l : Chars) : Chars :=
  let l1 := l.dropWhile (fun c => c ∈ chs)
  (l1.reverse.dropWhile (fun c => c ∈ chs)).reverse

/-- The quote characters stripped by `.strip('"'')` in the sources. -/
def quoteChars : Chars := ['"', '\'']

/-- Title-case helper: tracks whether the previous character was alphabetic. -/
def pyTitleAux : Bool → Chars → Chars
  | _, [] => []
  | prevAlpha, c :: rest =>
    let c' := if c.isAlpha then (if prevAlpha then c.toLower else c.toUpper) else c
    c' :: pyTitleAux c.isAlpha rest

/-- Python `str.title()` (ASCII behaviour). -/
def pyTitle (l : Chars) : Chars := pyTitleAux false l

/-- Decimal digit character of a value below ten. -/
def digitChar : Nat → Char
  | 0 => '0' | 1 => '1' | 2 => '2' | 3 => '3' | 4 => '4'
  | 5 => '5' | 6 => '6' | 7 => '7' | 8 => '8' | _ => '9'

/-- Fuelled digit-extraction loop for `natDigits`; the fuel only bounds
the recursion depth and `natDigits` always supplies enough. -/
def natDigitsAux : Nat → Nat → Chars
  | 0, n => [digitChar n]
  | fuel + 1, n =>
    if n < 10 then [digitChar n]
    else natDigitsAux fuel (n / 10) ++ [digitChar (n % 10)]

/-- Decimal rendering of a natural number, as produced by a Python
f-string such as `f"{counter}"`. -/
def natDigits (n : Nat) : Chars := natDigitsAux n n

/-- Numeric value of a digit string (how Python `int(_)` reads it). -/
def natVal (l : Chars) : Nat := l.foldl (fun a c => a * 10 + (c.toNat - 48)) 0

/-- Python `dict` lookup on an insertion-ordered association list. -/
def dictGet {α : Type} (m : List (Chars × α)) (k : Chars) : Option α :=
  (m.find? (fun p => p.1 = k)).map (fun p => p.2)

/-- Python `dict` assignment `m[k] = v`: replace in place if the key is
present, otherwise append. -/
def dictUpdate {α : Type} (m : List (Chars × α)) (k : Chars) (v : α) :
    List (Chars × α) :=
  if m.any (fun p => p.1 = k) then
    m.map (fun p => if p.1 = k then (k, v) else p)
  else m ++ [(k, v)]

/-- A `value`/`label` option pair as produced by the converters. -/
structure Opt2 where
  value : Chars
  label : Chars
deriving DecidableEq, Repr, Inhabited

/-- A JSON scalar stored in an `answer_schema` map: an (empty) string, an
(empty) array, or a number. -/
inductive SVal where
  | str (v : Chars)
  | list (v : List Chars)
  | num (n : Int)
deriving DecidableEq, Repr, Inhabited

/-! ### Phase-2 converter: `data/phase_2/scripts/convert_questions.py` -/

/-- The fixed `LITE_IDS` allow-list of `convert_questions.py`. -/
def liteIds : List Chars :=
  [ "q01".data, "q02".data, "q03".data, "q05".data, "q06".data, "q07".data,
    "q08".data, "q09".data, "q10".data, "q11".data, "q14".data, "q16".data,
    "q19".data, "q20".data, "q22".data, "q24".data, "q25".data, "q28".data,
    "q29".data, "q33".data, "q37".data, "q39".data ]

/-- `clean_key` of `convert_questions.py`: first four words joined by
underscores, lower-cased, restricted to `[a-z0-9_]`, digit-guarded and
truncated to 30 characters. -/
def cleanKey (text : Chars) : Chars :=
  let words := (pySplitWs text).take 4
  let key := pyLower (List.intercalate ['_'] words)
  let key := key.filter keepKeyChar
  let key :=
    match key with
    | c :: _ => if c.isDigit then "f_".data ++ key else key
    | [] => key
  key.take 30

/-- `clean_value` of `convert_questions.py`.  The `.error` case embeds the
`IndexError` raised by `words[0]` when `text.split()` is empty. -/
def cleanValue (text : Chars) : Except PyErr Chars :=
  if containsSub "other (write in)".data (pyLower text) then .ok "other".data
  else
    match pySplitWs text with
    | [] => .error .indexError
    | w :: _ =>
      if ':' ∈ w then .ok (pyLower (w.filter (fun c => ¬ (c = ':'))))
      else
        let ws := (pySplitWs text).take 3
        .ok (((pyLower (List.intercalate ['_'] ws)).filter keepKeyChar).take 30)

/-- A compound-question sub-field as produced by `parse_fields`. -/
structure Field2 where
  key : Chars
  label : Chars
  ftype : Chars
  options : Option (List Opt2) := none
deriving DecidableEq, Repr, Inhabited

/-- Matcher for the option regex `^\s{2,}- (.+)` of `parse_fields`
(at least two leading whitespace characters, then a dash item). -/
def optionMatch (l : Chars) : Option Chars :=
  let wsRun := l.takeWhile isPySpace
  if wsRun.length ≥ 2 then
    match l.dropWhile isPySpace with
    | '-' :: ' ' :: c :: cs => some (c :: cs)
    | _ => none
  else none

/-- Matcher for the label-less field regex `^- \(([^)]+)\):(.*)`:
returns the parenthesised type token and the trailing text. -/
def labellessMatch (l : Chars) : Option (Chars × Chars) :=
  match l with
  | '-' :: ' ' :: '(' :: rest =>
    let content := rest.takeWhile (fun c => ¬ (c = ')'))
    if content = [] then none
    else
      match rest.dropWhile (fun c => ¬ (c = ')')) with
      | ')' :: ':' :: tail => some (content, tail)
      | _ => none
  | _ => none

/-- The tail group `(:.*|$)` of the field-start regex: matches a colon
followed by the rest of the line, or the empty string at line end. -/
def group3Match (r : Chars) : Option Chars :=
  match r with
  | [] => some []
  | ':' :: _ => some r
  | _ => none

/-- Lazy matcher for `\((.+?)\)` followed by the tail group: finds the
shortest non-empty parenthesised content whose closing parenthesis is
followed by a tail-group match, mirroring regex backtracking. -/
def lazyParenAux (acc : Chars) : Chars → Option (Chars × Chars)
  | [] => none
  | c :: rest =>
    let acc' := c :: acc
    match rest with
    | ')' :: t =>
      match group3Match t with
      | some g => some (acc'.reverse, g)
      | none => lazyParenAux acc' rest
    | _ => lazyParenAux acc' rest

/-- One step of the field-start matcher at a fixed lazy prefix length:
try the optional ` (type)` group first, then the bare tail group.
Returns the optional type token (group 2) and the tail (group 3). -/
def fieldStartStep (rest : Chars) : Option (Option Chars × Chars) :=
  match rest with
  | ' ' :: '(' :: tail =>
    match lazyParenAux [] tail with
    | some (content, g3) => some (some content, g3)
    | none => (group3Match rest).map (fun g3 => (none, g3))
  | _ => (group3Match rest).map (fun g3 => (none, g3))

/-- Lazy scan for the field-start regex `^- (.+?)(?: \((.+?)\))?(:.*|$)`:
grow group 1 one character at a time until the remainder matches. -/
def fieldStartAux (seen : Chars) : Chars → Option (Chars × Option Chars × Chars)
  | [] => none
  | c :: rest =>
    match fieldStartStep rest with
    | some (ti, g3) => some ((c :: seen).reverse, ti, g3)
    | none => fieldStartAux (c :: seen) rest

/-- Matcher for the field-start regex of `parse_fields`: returns the raw
label (group 1), the optional type token (group 2) and the tail (group 3). -/
def fieldStartMatch (l : Chars) : Option (Chars × Option Chars × Chars) :=
  match l with
  | c1 :: c2 :: t => if c1 = '-' ∧ c2 = ' ' then fieldStartAux [] t else none
  | _ => none

/-- One fuelled step of the collision-resolution loop
`while key in existing_keys: key = f"{base}_{counter}"; counter += 1`. -/
def freshKeyAux (base : Chars) (keys : List Chars) :
    Nat → Nat → Chars → Chars
  | 0, _, key => key
  | fuel + 1, counter, key =>
    if key ∈ keys then
      freshKeyAux base keys fuel (counter + 1) (base ++ '_' :: natDigits counter)
    else key

/-- The collision-resolved key: `base` itself, or `base_2`, `base_3`, ...
The fuel `keys.length + 2` is enough for the loop to reach a key outside
`keys` (proved below). -/
def freshKey (base : Chars) (keys : List Chars) : Chars :=
  freshKeyAux base keys (keys.length + 2) 2 base

/-- The field-type token chain of the label-less branch of `parse_fields`
(no `short_text` test in this branch). -/
def labellessType (typeRaw : Chars) : Chars :=
  if typeRaw = [] then "short_text".data
  else
    let t := pyLower typeRaw
    if containsSub "single_select".data t then "single_select".data
    else if containsSub "multi_select".data t then "multi_select".data
    else if containsSub "ranked_select".data t then "ranked_select".data
    else if containsSub "number".data t then "number".data
    else if containsSub "free_text".data t then "free_text".data
    else "short_text".data

/-- The field-type token chain of the labelled branch of `parse_fields`
(includes the redundant `short_text` test of the source). -/
def fieldType (typeRaw : Option Chars) : Chars :=
  match typeRaw with
  | none => "short_text".data
  | some tr =>
    let t := pyLower tr
    if containsSub "single_select".data t then "single_select".data
    else if containsSub "multi_select".data t then "multi_select".data
    else if containsSub "ranked_select".data t then "ranked_select".data
    else if containsSub "number".data t then "number".data
    else if containsSub "free_text".data t then "free_text".data
    else if containsSub "short_text".data t then "short_text".data
    else "short_text".data

/-- Evaluate `clean_value` on each stripped comma piece, propagating the
first exception, as the option list comprehensions of `parse_fields` do. -/
def traverseOpts : List Chars → Except PyErr (List Opt2)
  | [] => .ok []
  | o :: rest =>
    match cleanValue o with
    | .error e => .error e
    | .ok v =>
      match traverseOpts rest with
      | .error e => .error e
      | .ok tl => .ok (⟨v, o⟩ :: tl)

/-- The trailing-text expression (`rest2` in the source) that the
field-start branch of `parse_fields` derives from regex group 3: the
stripped group (empty when the group is empty), with a leading colon
dropped and re-stripped. -/
def fsRest2 (g3 : Chars) : Chars :=
  let rest1 : Chars := if g3 = [] then [] else pyStrip g3
  if ":".data.isPrefixOf rest1 then pyStrip (rest1.drop 1) else rest1

/-- The field type of the field-start branch of `parse_fields`: the type
token chain, overridden to `free_text` when the label has the word
`notes`. -/
def pfFieldType (labelRaw : Chars) (typeRaw? : Option Chars) : Chars :=
  if "notes".data ∈ pySplitWs (pyLower labelRaw) then "free_text".data
  else fieldType typeRaw?

/-- The field key of the field-start branch of `parse_fields`: the
collision-resolved key, overridden to the literal `notes` AFTER the
collision resolution when the label has the word `notes`. -/
def pfKey (labelRaw key0 : Chars) : Chars :=
  if "notes".data ∈ pySplitWs (pyLower labelRaw) then "notes".data else key0

/-- The field label of the field-start branch of `parse_fields`:
rewritten to `Notes` for an optional notes label. -/
def pfLabel (labelRaw : Chars) : Chars :=
  if "notes".data ∈ pySplitWs (pyLower labelRaw) ∧
      containsSub "optional".data (pyLower labelRaw) then "Notes".data
  else labelRaw

/-- The mutable state of the `parse_fields` loop: emitted fields, the
field under construction, and the `existing_keys` set. -/
structure PFState where
  fields : List Field2
  current : Option Field2
  existing : List Chars
deriving Repr, Inhabited

/-- The `parse_fields` line loop of `convert_questions.py`, one source
line per step; `.ok` carries the loop state at exit (end of lines or the
`implementation notes` / `answer_schema` break). -/
def parseFieldsLoop : List Chars → PFState → Except PyErr PFState
  | [], st => .ok st
  | l :: rest, st =>
    if pyStrip l = [] then parseFieldsLoop rest st
    else if containsSub "implementation notes".data (pyLower l) ||
            containsSub "answer_schema".data (pyLower l) then .ok st
    else
      match optionMatch l, st.current with
      | some g1, some cf =>
        let content := pyStrip g1
        match cleanValue content with
        | .error e => .error e
        | .ok v =>
          let cf' := { cf with options := some ((cf.options.getD []) ++ [⟨v, content⟩]) }
          parseFieldsLoop rest { st with current := some cf' }
      | _, _ =>
        if "- ".data.isPrefixOf l then
          match labellessMatch l with
          | some (typeRaw0, rest0) =>
            let typeRaw := pyStrip typeRaw0
            let rest1 := pyStrip rest0
            let fields' := st.fields ++ st.current.toList
            let key := freshKey "choice".data st.existing
            let existing' := key :: st.existing
            let ftype := labellessType typeRaw
            if rest1 = [] then
              parseFieldsLoop rest
                { fields := fields',
                  current := some { key := key, label := "Options".data, ftype := ftype },
                  existing := existing' }
            else
              match traverseOpts ((splitOnComma rest1).map pyStrip) with
              | .error e => .error e
              | .ok opts =>
                parseFieldsLoop rest
                  { fields := fields',
                    current := some
                      { key := key, label := "Options".data, ftype := ftype,
                        options := some opts },
                    existing := existing' }
          | none =>
            match fieldStartMatch l with
            | some (g1, typeRaw?, g3) =>
              let labelRaw := pyStrip g1
              let fields' := st.fields ++ st.current.toList
              if "implementation notes".data.isPrefixOf (pyLower labelRaw) ||
                 "answer_schema".data.isPrefixOf (pyLower labelRaw) then
                parseFieldsLoop rest { st with fields := fields' }
              else
                let baseKey0 := cleanKey labelRaw
                let baseKey := if baseKey0 = [] then "field".data else baseKey0
                let key0 := freshKey baseKey st.existing
                let existing' := key0 :: st.existing
                let key := pfKey labelRaw key0
                let label := pfLabel labelRaw
                let ftype := pfFieldType labelRaw typeRaw?
                let rest2 := fsRest2 g3
                if rest2 ≠ [] ∧
                    (ftype = "single_select".data ∨ ftype = "multi_select".data) then
                  match traverseOpts ((splitOnComma rest2).map pyStrip) with
                  | .error e => .error e
                  | .ok opts =>
                    parseFieldsLoop rest
                      { fields := fields',
                        current := some
                          { key := key, label := label, ftype := ftype,
                            options := some opts },
                        existing := existing' }
                else
                  parseFieldsLoop rest
                    { fields := fields',
                      current := some { key := key, label := label, ftype := ftype },
                      existing := existing' }
            | none => parseFieldsLoop rest st
        else parseFieldsLoop rest st

/-- `parse_fields` of `convert_questions.py`: run the loop from the empty
state, then flush the final field unless its label is one of the two
terminator phrases. -/
def parseFields (lines : List Chars) : Except PyErr (List Field2) :=
  match parseFieldsLoop lines ⟨[], none, []⟩ with
  | .error e => .error e
  | .ok st =>
    .ok (st.fields ++
      (match st.current with
       | some cf =>
         if pyLower cf.label = "implementation notes".data ∨
            pyLower cf.label = "answer_schema".data then []
         else [cf]
       | none => []))

/-- A conditional-visibility rule (`showWhen`). -/
structure ShowWhen2 where
  field : Chars
  vals : List Chars
deriving DecidableEq, Repr, Inhabited

/-- A question record as produced by `process_question_block`.  The
`options` and `fields` JSON keys are present exactly when the embedded
lists are non-empty; `showWhen` presence is the `Option`. -/
structure Question2 where
  id : Chars
  section_id : Chars
  order : Nat
  title : Chars
  prompt : Chars
  qtype : Chars
  answer_schema : List (Chars × SVal)
  tags : List Chars
  options : List Opt2
  fields : List Field2
  showWhen : Option ShowWhen2
deriving DecidableEq, Repr, Inhabited

/-- Matcher for `re.match(r'(q\d+)', header)`: the digit run after a
leading `q`. -/
def qidMatch (h : Chars) : Option Chars :=
  match h with
  | 'q' :: rest =>
    let ds := rest.takeWhile Char.isDigit
    if ds = [] then none else some ds
  | _ => none

/-- Python `str.split(sep, 1)` for a one-character separator: text before
the first occurrence, and the remainder when the separator occurs. -/
def splitOnce (sep : Char) (l : Chars) : Chars × Option Chars :=
  let a := l.takeWhile (fun c => ¬ (c = sep))
  match l.dropWhile (fun c => ¬ (c = sep)) with
  | [] => (a, none)
  | _ :: t => (a, some t)

/-- Scanner for `re.search(r'\(([^)]+)\)$', s)`: the leftmost opening
parenthesis whose non-empty, parenthesis-free content runs to a closing
parenthesis that ends the string.  Returns the text before the match and
the content. -/
def searchParenEndAux (seen : Chars) : Chars → Option (Chars × Chars)
  | [] => none
  | c :: rest =>
    if c = '(' then
      let content := rest.takeWhile (fun c => ¬ (c = ')'))
      if content ≠ [] ∧ rest.dropWhile (fun c => ¬ (c = ')')) = [')'] then
        some (seen.reverse, content)
      else searchParenEndAux (c :: seen) rest
    else searchParenEndAux (c :: seen) rest

/-- Entry point of the `\(([^)]+)\)$` scanner. -/
def searchParenEnd (s : Chars) : Option (Chars × Chars) :=
  searchParenEndAux [] s

/-- The parsing mode of the `process_question_block` body loop
(the Python code stores it as a string). -/
inductive BMode where
  | prompt | options | fields | showWhen
deriving DecidableEq, Repr, Inhabited

/-- The mutable state of the `process_question_block` body loop. -/
structure BState where
  prompt : Chars
  options : List Opt2
  fieldLines : List Chars
  mode : BMode
deriving Repr, Inhabited

/-- The body-line loop of `process_question_block`: prompt capture, mode
switches, option collection (which can raise through `clean_value`),
field-line accumulation, and the `implementation notes` break. -/
def bodyLoop : List Chars → BState → Except PyErr BState
  | [], st => .ok st
  | l :: rest, st =>
    let cl := pyStrip l
    if cl = [] then bodyLoop rest st
    else if "prompt:".data.isPrefixOf (pyLower cl) then
      bodyLoop rest { st with prompt := pyStrip (cl.drop 7) }
    else if "options:".data.isPrefixOf (pyLower cl) then
      bodyLoop rest { st with mode := .options }
    else if "fields:".data.isPrefixOf (pyLower cl) then
      bodyLoop rest { st with mode := .fields }
    else if "showwhen:".data.isPrefixOf (pyLower cl) then
      bodyLoop rest { st with mode := .showWhen }
    else if "implementation notes".data.isPrefixOf (pyLower cl) then .ok st
    else
      match st.mode with
      | .options =>
        if "-".data.isPrefixOf cl then
          let content := pyStrip (cl.drop 2)
          match cleanValue content with
          | .error e => .error e
          | .ok v => bodyLoop rest { st with options := st.options ++ [⟨v, content⟩] }
        else bodyLoop rest st
      | .fields => bodyLoop rest { st with fieldLines := st.fieldLines ++ [l] }
      | _ => bodyLoop rest st

/-- Title and type-token extraction from a question header in
`process_question_block`: split at the first em-dash, then search for a
trailing parenthesised token. -/
def parseHeaderTitleType (header : Chars) : Chars × Chars :=
  match (splitOnce '—' header).2 with
  | some p1 =>
    let rest := pyStrip p1
    match searchParenEnd rest with
    | some (before, inside) => (pyStrip before, pyLower inside)
    | none => (rest, "free_text".data)
  | none => ("Unknown".data, "free_text".data)

/-- The question-type selection chain of `process_question_block`
(note: a token containing `ranked_select` yields `compound`). -/
def selectQType (typeStr : Chars) : Chars :=
  if containsSub "compound".data typeStr then "compound".data
  else if containsSub "single_select".data typeStr then "single_select".data
  else if containsSub "multi_select".data typeStr then "multi_select".data
  else if containsSub "ranked_select".data typeStr then "compound".data
  else "free_text".data

/-- The schema value a compound field contributes: an empty sequence for
`multi_select`/`ranked_select` field types, an empty string otherwise
(the if/else of the compound branch of `process_question_block`). -/
def fieldShape (f : Field2) : SVal :=
  if f.ftype = "multi_select".data ∨ f.ftype = "ranked_select".data then
    .list []
  else .str []

/-- The `answer_schema` synthesis of `process_question_block` as a
function of the question type and the parsed fields. -/
def buildSchema (qtype : Chars) (fieldsData : List Field2) :
    List (Chars × SVal) :=
  if qtype = "free_text".data then [("text".data, .str [])]
  else if qtype = "single_select".data then
    [("selected_value".data, .str []), ("other_text".data, .str []),
     ("notes".data, .str [])]
  else if qtype = "multi_select".data then
    [("selected_values".data, .list []), ("other_text".data, .str []),
     ("notes".data, .str [])]
  else if qtype = "compound".data then
    fieldsData.foldl (fun m f => dictUpdate m f.key (fieldShape f)) []
  else []

/-- The body of `process_question_block` after the `block[0]` access:
header parsing, the body-line loop, field parsing and record assembly. -/
def processBlockCore (header0 : Chars) (body : List Chars) (sectionId : Chars) :
    Except PyErr (Option Question2) :=
    let header := pyStrip header0
    match qidMatch header with
    | none => .ok none
    | some ds =>
      let qid := 'q' :: ds
      let title := (parseHeaderTitleType header).1
      let typeStr := (parseHeaderTitleType header).2
      let qtype := selectQType typeStr
      match bodyLoop body ⟨[], [], [], .prompt⟩ with
      | .error e => .error e
      | .ok bst =>
        match (if bst.fieldLines = [] then .ok [] else parseFields bst.fieldLines :
            Except PyErr (List Field2)) with
        | .error e => .error e
        | .ok fieldsData =>
          let schema := buildSchema qtype fieldsData
          let tags :=
            if qid ∈ liteIds then ["lite".data, "full".data] else ["full".data]
          let showWhen :=
            if qid = "q30".data then
              some (⟨"q29".data, ["yes".data, "unsure".data]⟩ : ShowWhen2)
            else none
          .ok (some
            { id := qid, section_id := sectionId, order := natVal ds,
              title := title, prompt := bst.prompt, qtype := qtype,
              answer_schema := schema, tags := tags,
              options := bst.options, fields := fieldsData,
              showWhen := showWhen })

/-- `process_question_block` of `convert_questions.py`.  `.ok none`
embeds the Python `return None` on a header that does not match
`(q\d+)`; `.error` embeds an uncaught exception inside the block
(`block[0]` on an empty block raises). -/
def processQuestionBlock (block : List Chars) (sectionId : Chars) :
    Except PyErr (Option Question2) :=
  match block with
  | [] => .error .indexError
  | header0 :: body => processBlockCore header0 body sectionId

/-- Scanner for `re.search(r'SECTION (s\d+)', line)`: the first
`SECTION s<digits>` occurrence. -/
def searchSectionTag : Chars → Option Chars
  | [] => none
  | l@(_ :: rest) =>
    if "SECTION s".data.isPrefixOf l then
      let ds := (l.drop 9).takeWhile Char.isDigit
      if ds = [] then searchSectionTag rest else some ('s' :: ds)
    else searchSectionTag rest

/-- Matcher for `re.match(r'^q\d+ —', line)`. -/
def qBlockStart (l : Chars) : Bool :=
  match l with
  | 'q' :: rest =>
    let ds := rest.takeWhile Char.isDigit
    ds ≠ [] ∧ " —".data.isPrefixOf (rest.drop ds.length)
  | _ => false

/-- Auxiliary accumulator loop for `splitNl`. -/
def splitNlAux : Chars → Chars → List Chars
  | [], acc => [acc.reverse]
  | c :: rest, acc =>
    if c = '\n' then acc.reverse :: splitNlAux rest [] else splitNlAux rest (c :: acc)

/-- Python `str.split('\n')`. -/
def splitNl (content : Chars) : List Chars := splitNlAux content []

/-- The accumulation loop of `split_into_blocks`. -/
def splitBlocksLoop :
    List Chars → List Chars → Chars → List (List Chars × Chars) →
    List (List Chars × Chars)
  | [], curBlock, curSection, blocks =>
    if curBlock = [] then blocks else blocks ++ [(curBlock, curSection)]
  | l :: rest, curBlock, curSection, blocks =>
    if "SECTION s".data.isPrefixOf l then
      let curSection' := (searchSectionTag l).getD curSection
      splitBlocksLoop rest curBlock curSection' blocks
    else if qBlockStart l then
      if curBlock = [] then splitBlocksLoop rest [l] curSection blocks
      else splitBlocksLoop rest [l] curSection (blocks ++ [(curBlock, curSection)])
    else if curBlock = [] then splitBlocksLoop rest curBlock curSection blocks
    else splitBlocksLoop rest (curBlock ++ [l]) curSection blocks

/-- `split_into_blocks` of `convert_questions.py`: question blocks paired
with their owning section id. -/
def splitIntoBlocks (content : Chars) : List (List Chars × Chars) :=
  splitBlocksLoop (splitNl content) [] "s1".data []

/-- The per-block loop of `main`: each block is processed inside its own
try/except, so one failing block never stops the others. -/
def processAllBlocks (blocks : List (List Chars × Chars)) :
    List (Except PyErr (Option Question2)) :=
  blocks.map (fun b => processQuestionBlock b.1 b.2)

/-! ### Schema validator: `scripts/validate_schema.py`

JSON documents are embedded structurally: every optional JSON key of a
question object is an `Option` field, arrays are lists, and objects keyed
by strings are insertion-ordered association lists.  Error and warning
message strings are embedded as constructors carrying exactly the data
interpolated into the corresponding Python f-string. -/

/-- An entry of a question's `options` array (either key may be absent). -/
structure VOpt where
  value? : Option Chars := none
  label? : Option Chars := none
deriving DecidableEq, Repr, Inhabited

/-- An entry of a compound question's `fields` array. -/
structure VField where
  key? : Option Chars := none
  ftype? : Option Chars := none
  label? : Option Chars := none
deriving DecidableEq, Repr, Inhabited

/-- A question object of a persisted `questions.json` document; every
field models the presence/absence of the like-named JSON key. -/
structure VQuestion where
  id? : Option Chars := none
  section_id? : Option Chars := none
  order? : Option Int := none
  title? : Option Chars := none
  prompt? : Option Chars := none
  qtype? : Option Chars := none
  answer_schema? : Option (List (Chars × SVal)) := none
  examples? : Option (List Chars) := none
  tags? : Option (List Chars) := none
  options? : Option (List VOpt) := none
  fields? : Option (List VField) := none
  max? : Option Int := none
deriving DecidableEq, Repr, Inhabited

/-- A section object (its `id` is accessed unconditionally by the
validator; `question_ids` is read with `.get(_, [])`). -/
structure VSection where
  id : Chars
  question_ids : List Chars := []
deriving DecidableEq, Repr, Inhabited

/-- A manifest object (`question_ids` is read with `.get(_, [])`). -/
structure VManifest where
  question_ids : List Chars := []
deriving DecidableEq, Repr, Inhabited

/-- A persisted `questions.json` document; the three top-level keys may
each be absent. -/
structure VDoc where
  sections? : Option (List VSection) := none
  questions? : Option (List (Chars × VQuestion)) := none
  manifests? : Option (List (Chars × VManifest)) := none
deriving DecidableEq, Repr, Inhabited

/-- One validator error or warning message, as a constructor carrying
the data the Python code interpolates into the message string. -/
inductive VErr where
  | missingSections
  | missingQuestions
  | missingManifests
  | missingFields (qid : Chars) (missing : List Chars)
  | invalidType (qid : Chars) (t : Chars)
  | invalidSectionRef (qid : Chars) (sid : Chars)
  | manifestRef (mname : Chars) (qid : Chars)
  | optMissingOptions (qid : Chars)
  | optMissingValue (qid : Chars) (i : Nat)
  | optMissingLabel (qid : Chars) (i : Nat)
  | compoundMissingFields (qid : Chars)
  | fieldMissingKey (qid : Chars)
  | fieldMissingType (qid : Chars)
  | fieldMissingLabel (qid : Chars)
  | dupQuestionIds (ids : List Chars)
  | dupOrder (sid : Chars) (ord : Option Int) (q1 q2 : Chars)
  | orphans (qs : List Chars)
  | multiNoMax (qid : Chars) (numOptions : Nat)
deriving DecidableEq, Repr, Inhabited

/-- `VALID_TYPES` of `SchemaValidator`. -/
def validTypes : List Chars :=
  [ "free_text".data, "single_select".data, "multi_select".data,
    "ranked_select".data, "compound".data ]

/-- `REQUIRED_QUESTION_FIELDS` of `SchemaValidator` (key names, in the
order the source lists them). -/
def requiredQuestionFields : List Chars :=
  [ "id".data, "section_id".data, "order".data, "title".data, "prompt".data,
    "type".data, "answer_schema".data, "examples".data, "tags".data ]

/-- Whether the JSON key named `f` is present on the question object,
matching Python's `f not in q` tests against the required key names. -/
def vHasField (q : VQuestion) (f : Chars) : Bool :=
  if f = "id".data then q.id?.isSome
  else if f = "section_id".data then q.section_id?.isSome
  else if f = "order".data then q.order?.isSome
  else if f = "title".data then q.title?.isSome
  else if f = "prompt".data then q.prompt?.isSome
  else if f = "type".data then q.qtype?.isSome
  else if f = "answer_schema".data then q.answer_schema?.isSome
  else if f = "examples".data then q.examples?.isSome
  else if f = "tags".data then q.tags?.isSome
  else false

/-- The enabled checks (`--check`); `syntax` concerns JSON decoding,
which happens before `validate_phase` runs its checks, and is not
consulted inside the check dispatch, so it is not modelled here. -/
inductive CheckId where
  | cStructure | cTypes | cReferences | cManifests | cOptions
  | cFields | cDuplicates | cOrphans | cBestPractices
deriving DecidableEq, Repr, Inhabited

/-- `ALL_CHECKS` (the default configuration). -/
def allChecks : List CheckId :=
  [ .cStructure, .cTypes, .cReferences, .cManifests, .cOptions,
    .cFields, .cDuplicates, .cOrphans, .cBestPractices ]

/-- `_check_structure`: required top-level keys, then per-question
required fields. -/
def checkStructure (d : VDoc) : List VErr :=
  (if d.sections?.isSome then [] else [.missingSections]) ++
  (if d.questions?.isSome then [] else [.missingQuestions]) ++
  (if d.manifests?.isSome then [] else [.missingManifests]) ++
  (d.questions?.getD []).flatMap (fun p =>
    let missing := requiredQuestionFields.filter (fun f => ¬ vHasField p.2 f)
    if missing = [] then [] else [.missingFields p.1 missing])

/-- `_check_types`: `if qtype and qtype not in VALID_TYPES` (an empty
string is falsy in Python and is therefore skipped). -/
def checkTypes (d : VDoc) : List VErr :=
  (d.questions?.getD []).flatMap (fun p =>
    match p.2.qtype? with
    | some t => if t ≠ [] ∧ t ∉ validTypes then [.invalidType p.1 t] else []
    | none => [])

/-- `_check_references`: each question's `section_id` must name an
existing section (an empty string is falsy and skipped). -/
def checkReferences (d : VDoc) : List VErr :=
  let sectionIds := (d.sections?.getD []).map VSection.id
  (d.questions?.getD []).flatMap (fun p =>
    match p.2.section_id? with
    | some sid =>
      if sid ≠ [] ∧ sid ∉ sectionIds then [.invalidSectionRef p.1 sid] else []
    | none => [])

/-- `_check_manifests`: every manifest `question_ids` entry must be a key
of `questions`. -/
def checkManifests (d : VDoc) : List VErr :=
  let questionIds := (d.questions?.getD []).map Prod.fst
  (d.manifests?.getD []).flatMap (fun m =>
    m.2.question_ids.flatMap (fun qid =>
      if qid ∉ questionIds then [.manifestRef m.1 qid] else []))

/-- Indexed per-option errors of `_check_options`. -/
def optEntryErrs (qid : Chars) : Nat → List VOpt → List VErr
  | _, [] => []
  | i, o :: rest =>
    (if o.value?.isSome then [] else [.optMissingValue qid i]) ++
    (if o.label?.isSome then [] else [.optMissingLabel qid i]) ++
    optEntryErrs qid (i + 1) rest

/-- `_check_options`: only questions whose type is `single_select` or
`multi_select` are inspected (`ranked_select` is absent from the list in
the source). -/
def checkOptions (d : VDoc) : List VErr :=
  (d.questions?.getD []).flatMap (fun p =>
    if p.2.qtype? = some "single_select".data ∨
       p.2.qtype? = some "multi_select".data then
      let options := p.2.options?.getD []
      (if options = [] then [.optMissingOptions p.1] else []) ++
      optEntryErrs p.1 0 options
    else [])

/-- `_check_fields`: compound questions must carry a non-empty `fields`
array whose entries each have `key`, `type` and `label`. -/
def checkFields (d : VDoc) : List VErr :=
  (d.questions?.getD []).flatMap (fun p =>
    if p.2.qtype? = some "compound".data then
      let fields := p.2.fields?.getD []
      (if fields = [] then [.compoundMissingFields p.1] else []) ++
      fields.flatMap (fun f =>
        (if f.key?.isSome then [] else [.fieldMissingKey p.1]) ++
        (if f.ftype?.isSome then [] else [.fieldMissingType p.1]) ++
        (if f.label?.isSome then [] else [.fieldMissingLabel p.1]))
    else [])

/-- Lexicographic code-point order on embedded strings (Python string
comparison, used by `sorted`). -/
def charsLe : Chars → Chars → Bool
  | [], _ => true
  | _ :: _, [] => false
  | a :: as, b :: bs =>
    if a.toNat < b.toNat then true
    else if a.toNat = b.toNat then charsLe as bs
    else false

/-- Stable insertion of one element into a list sorted by `le`
(duplicated keys keep their relative order, as Python's stable sort
does). -/
def sortedInsert (le : Chars → Chars → Bool) (x : Chars) :
    List Chars → List Chars
  | [] => [x]
  | y :: ys => if le x y ∧ ¬ le y x then x :: y :: ys else y :: sortedInsert le x ys

/-- Stable sort by `le` (Python's `sorted`). -/
def sortChars (le : Chars → Chars → Bool) (l : List Chars) : List Chars :=
  l.foldl (fun acc x => sortedInsert le x acc) []

/-- Python dict assignment on the `orders` dictionary of
`_check_duplicates`. -/
def ordUpdate (m : List (Option Int × Chars)) (k : Option Int) (v : Chars) :
    List (Option Int × Chars) :=
  if m.any (fun e => e.1 = k) then
    m.map (fun e => if e.1 = k then (k, v) else e)
  else m ++ [(k, v)]

/-- The per-section duplicate-`order` fold of `_check_duplicates`:
`orders` maps each seen order value to the question that introduced it. -/
def dupOrderLoop (sid : Chars) (questions : List (Chars × VQuestion)) :
    List Chars → List (Option Int × Chars) → List VErr
  | [], _ => []
  | qid :: rest, orders =>
    match questions.find? (fun p => p.1 = qid) with
    | none => dupOrderLoop sid questions rest orders
    | some p =>
      let o := p.2.order?
      match (orders.find? (fun e => e.1 = o)).map (fun e => e.2) with
      | some prev =>
        .dupOrder sid o prev qid ::
          dupOrderLoop sid questions rest (ordUpdate orders o qid)
      | none => dupOrderLoop sid questions rest (ordUpdate orders o qid)

/-- `_check_duplicates`: duplicate question ids (impossible for a real
JSON object and reported from a Python `set` whose iteration order is
arbitrary, so the id list is canonicalised by sorting), then duplicate
`order` values within each section. -/
def checkDuplicates (d : VDoc) : List VErr :=
  let questionIds := (d.questions?.getD []).map Prod.fst
  (if questionIds.Nodup then []
   else
     [.dupQuestionIds
       (sortChars charsLe
         ((questionIds.filter (fun q => 1 < questionIds.count q)).eraseDups))]) ++
  (d.sections?.getD []).flatMap (fun s =>
    dupOrderLoop s.id (d.questions?.getD []) s.question_ids [])

/-- `_check_orphans`: questions not referenced by any section
(a Python set difference, canonicalised by `sorted`). -/
def checkOrphans (d : VDoc) : List VErr :=
  let inSections := (d.sections?.getD []).flatMap VSection.question_ids
  let orphanList :=
    (((d.questions?.getD []).map Prod.fst).filter
      (fun q => q ∉ inSections)).eraseDups
  if orphanList = [] then [] else [.orphans (sortChars charsLe orphanList)]

/-- `_check_best_practices`: a `multi_select` question without a `max`
key draws a warning. -/
def checkBestPractices (d : VDoc) : List VErr :=
  (d.questions?.getD []).flatMap (fun p =>
    if p.2.qtype? = some "multi_select".data then
      if p.2.max?.isSome then []
      else [.multiNoMax p.1 (p.2.options?.getD []).length]
    else [])

/-- The three aggregate validation statuses. -/
inductive VStatus where
  | pass | warn | fail
deriving DecidableEq, Repr, Inhabited

/-- The check-dispatch half of `validate_phase`: runs the enabled checks
in source order and returns the accumulated errors and warnings
(`strict` promotes the two warning checks to errors, preserving the
append order of the source). -/
def validateErrors (checks : List CheckId) (strict : Bool) (d : VDoc) :
    List VErr × List VErr :=
  let errors :=
    (if CheckId.cStructure ∈ checks then checkStructure d else []) ++
    (if CheckId.cTypes ∈ checks then checkTypes d else []) ++
    (if CheckId.cReferences ∈ checks then checkReferences d else []) ++
    (if CheckId.cManifests ∈ checks then checkManifests d else []) ++
    (if CheckId.cOptions ∈ checks then checkOptions d else []) ++
    (if CheckId.cFields ∈ checks then checkFields d else []) ++
    (if CheckId.cDuplicates ∈ checks then checkDuplicates d else [])
  let orphanW := if CheckId.cOrphans ∈ checks then checkOrphans d else []
  let bpW := if CheckId.cBestPractices ∈ checks then checkBestPractices d else []
  if strict then (errors ++ orphanW ++ bpW, [])
  else (errors, orphanW ++ bpW)

/-- The status computation of `validate_phase`. -/
def validateStatus (checks : List CheckId) (strict : Bool) (d : VDoc) :
    VStatus :=
  let (errors, warnings) := validateErrors checks strict d
  if errors ≠ [] then .fail
  else if warnings ≠ [] then .warn
  else .pass

/-! ### Phase-2 per-file validator:
`data/phase_2/scripts/validate_questions.py` -/

/-- A question JSON file as read by `validate_questions.py`.  The
`options` key may be present yet hold a non-list value (`isinstance`
check in the source), hence the nested `Option`. -/
structure FQuestion where
  id? : Option Chars := none
  section_id? : Option Chars := none
  order? : Option Int := none
  title? : Option Chars := none
  prompt? : Option Chars := none
  qtype? : Option Chars := none
  answer_schema? : Option (List (Chars × SVal)) := none
  tags? : Option (List Chars) := none
  options? : Option (Option (List VOpt)) := none
  fields? : Option (List VField) := none
deriving DecidableEq, Repr, Inhabited

/-- Error messages of `validate_file`, again as data-carrying
constructors. -/
inductive FErr where
  | idMismatch (found : Option Chars) (expected : Chars)
  | missingField (name : Chars)
  | badOptions (t : Chars)
  | emptyOptions (t : Chars)
  | missingFieldsList
  | fieldKeyNotInSchema (key : Option Chars)
deriving DecidableEq, Repr, Inhabited

/-- `REQUIRED_FIELDS` of `validate_questions.py`. -/
def fRequiredFields : List Chars :=
  [ "id".data, "section_id".data, "order".data, "title".data, "prompt".data,
    "type".data, "answer_schema".data, "tags".data ]

/-- Key-presence test for `FQuestion`, mirroring `field not in data`. -/
def fHasField (q : FQuestion) (f : Chars) : Bool :=
  if f = "id".data then q.id?.isSome
  else if f = "section_id".data then q.section_id?.isSome
  else if f = "order".data then q.order?.isSome
  else if f = "title".data then q.title?.isSome
  else if f = "prompt".data then q.prompt?.isSome
  else if f = "type".data then q.qtype?.isSome
  else if f = "answer_schema".data then q.answer_schema?.isSome
  else if f = "tags".data then q.tags?.isSome
  else false

/-- Python `filename.replace('.json', '')` (left-to-right, non-overlapping
removal of every occurrence of the five-character needle). -/
def removeDotJson : Chars → Chars
  | '.' :: 'j' :: 's' :: 'o' :: 'n' :: rest => removeDotJson rest
  | c :: rest => c :: removeDotJson rest
  | [] => []

/-- `validate_file` of `validate_questions.py` (after a successful JSON
load), given the base name of the file. -/
def validateFile (filename : Chars) (q : FQuestion) : List FErr :=
  let expected := removeDotJson filename
  (if q.id? = some expected then [] else [.idMismatch q.id? expected]) ++
  (fRequiredFields.flatMap (fun f =>
    if fHasField q f then [] else [.missingField f])) ++
  (match q.qtype? with
   | some t =>
     if t = "single_select".data ∨ t = "multi_select".data ∨
        t = "ranked_select".data then
       match q.options? with
       | none => [.badOptions t]
       | some none => [.badOptions t]
       | some (some l) => if l = [] then [.emptyOptions t] else []
     else []
   | none => []) ++
  (if q.qtype? = some "compound".data then
    let fields := q.fields?.getD []
    let schema := q.answer_schema?.getD []
    (if fields = [] then [.missingFieldsList] else []) ++
    fields.flatMap (fun f =>
      match f.key? with
      | some k =>
        if (schema.map Prod.fst).contains k then [] else [.fieldKeyNotInSchema (some k)]
      | none => [.fieldKeyNotInSchema none])
   else [])

/-! ### Phase-1 markdown converter: `scripts/convert_questions_md.py`

Only the functions actually reachable from `parse_markdown` are
embedded (`parse_question_block`, `parse_options`, `parse_fields` and
`parse_field_line` of that module are dead code, never called by
`parse_markdown`/`main`). -/

/-- A compound-question sub-field of the phase-1 converter, with the
optional keys its field parser can attach. -/
structure Field1 where
  key : Chars
  label : Chars
  ftype : Chars
  min? : Option Int := none
  max? : Option Int := none
  placeholder : Option Chars := none
  validationMax : Option Int := none
  showWhenEq : Option (Chars × Chars) := none
  options : Option (List Opt2) := none
deriving DecidableEq, Repr, Inhabited

/-- A question record of the phase-1 converter.  `examples` is always a
present JSON key (initialised to `[]`); `options`/`fields` keys are
present exactly when the lists are non-empty. -/
structure Question1 where
  id : Chars
  section_id : Chars
  order : Nat
  title : Chars
  prompt : Chars
  qtype : Chars
  answer_schema : List (Chars × SVal)
  examples : List Chars
  tags : List Chars
  options : List Opt2
  fields : List Field1
deriving DecidableEq, Repr, Inhabited

/-- A section record of the phase-1 converter. -/
structure Section1 where
  id : Chars
  title : Chars
  question_ids : List Chars
deriving DecidableEq, Repr, Inhabited

/-- A derived manifest of the phase-1 converter. -/
structure Manifest1 where
  id : Chars
  title : Chars
  question_ids : List Chars
  timebox_minutes : Nat
deriving DecidableEq, Repr, Inhabited

/-- The record set `parse_markdown` returns (the `ui_hints` block is
pass-through display metadata; its only content derived from parsing is
the pair of manifest sizes, embedded here as the two counts). -/
structure Doc1 where
  sections : List Section1
  questions : List (Chars × Question1)
  lite : Manifest1
  full : Manifest1
  uiLiteCount : Nat
  uiFullCount : Nat
deriving DecidableEq, Repr, Inhabited

/-- The accumulated state of a question block under construction
(the single dict stored in `current_question_block`). -/
structure BlockData where
  qId : Chars
  isLite : Bool
  title : Chars
  order : Nat
  sectionId : Option Chars
  lines : List Chars
deriving DecidableEq, Repr, Inhabited

/-- Python `str.zfill(2)` for the question number. -/
def zfill2 (l : Chars) : Chars :=
  if l.length ≥ 2 then l else List.replicate (2 - l.length) '0' ++ l

/-- The tail `\s*(.+)$` of the two header regexes: greedy whitespace,
then a non-empty remainder; on an all-whitespace tail the whitespace
group backtracks by one character. -/
def matchTailGroup (tail : Chars) : Option Chars :=
  if tail = [] then none
  else
    let rest := tail.dropWhile isPySpace
    if rest ≠ [] then some rest
    else some (tail.drop (tail.length - 1))

/-- Matcher for the section header regex `^## Section (\d+):\s*(.+)$`. -/
def sectionHeaderMatch (l : Chars) : Option (Chars × Chars) :=
  if "## Section ".data.isPrefixOf l then
    let r := l.drop 11
    let ds := r.takeWhile Char.isDigit
    if ds = [] then none
    else
      match r.drop ds.length with
      | ':' :: tail => (matchTailGroup tail).map (fun g2 => (ds, g2))
      | _ => none
  else none

/-- Matcher for the question header regex
`^### (Q\d+)\s*\[(LITE|FULL)\]\s*—\s*(.+)$`; returns the digit run, the
`LITE` flag and the title group. -/
def questionHeaderMatch (l : Chars) : Option (Chars × Bool × Chars) :=
  if "### Q".data.isPrefixOf l then
    let r := l.drop 5
    let ds := r.takeWhile Char.isDigit
    if ds = [] then none
    else
      match (r.drop ds.length).dropWhile isPySpace with
      | '[' :: r4 =>
        let mode? :=
          if "LITE]".data.isPrefixOf r4 then some (true, r4.drop 5)
          else if "FULL]".data.isPrefixOf r4 then some (false, r4.drop 5)
          else none
        match mode? with
        | some (isLite, r5) =>
          match r5.dropWhile isPySpace with
          | '—' :: r7 =>
            (matchTailGroup (r7.dropWhile isPySpace)).map
              (fun title => (ds, isLite, title))
          | _ => none
        | none => none
      | _ => none
  else none

/-- Scanner for `re.search(r'\*\*Type\*\*:\s*(\w+)', content)`: at each
occurrence of the literal marker, skip whitespace (including newlines)
and require at least one word character; otherwise keep scanning. -/
def typeSearch : Chars → Option Chars
  | [] => none
  | l@(_ :: rest) =>
    if "**Type**:".data.isPrefixOf l then
      let w := ((l.drop 9).dropWhile isPySpace).takeWhile isWordCh
      if w ≠ [] then some w else typeSearch rest
    else typeSearch rest

/-- The multiline-`$` test `\s*$`: some whitespace prefix ends the string
or is followed by a newline. -/
def wsDollar (r : Chars) : Bool :=
  r.dropWhile isPySpace = [] || '\n' ∈ r.takeWhile isPySpace

/-- The closing `["\']?\s*$` of the prompt/option label regexes. -/
def closeMatch (r : Chars) : Bool :=
  (match r with
   | c :: t => (c = '"' ∨ c = '\'') && wsDollar t
   | [] => false) ||
  wsDollar r

/-- The lazy group `(.+?)` before `closeMatch`: the shortest non-empty
newline-free prefix whose remainder closes. -/
def lazyContentAux (acc : Chars) : Chars → Option Chars
  | [] => none
  | c :: rest =>
    if c = '\n' then none
    else if closeMatch rest then some (c :: acc).reverse
    else lazyContentAux (c :: acc) rest

/-- Entry point of the lazy-content matcher. -/
def lazyContent (r : Chars) : Option Chars := lazyContentAux [] r

/-- The optional opening quote before the lazy content: quote-present is
preferred, falling back to treating the quote as content. -/
def tryQuoteContent (r : Chars) : Option Chars :=
  match r with
  | c :: rest =>
    if c = '"' ∨ c = '\'' then
      match lazyContent rest with
      | some g => some g
      | none => lazyContent r
    else lazyContent r
  | [] => none

/-- Descending search over the leading-whitespace group `\s*`: the
longest whitespace prefix admitting a match wins. -/
def tryWsPrefix (t : Chars) : Nat → Option Chars
  | 0 => tryQuoteContent t
  | k + 1 =>
    match tryQuoteContent (t.drop (k + 1)) with
    | some g => some g
    | none => tryWsPrefix t k

/-- Matcher for `\s*["\']?(.+?)["\']?\s*$` applied right after a literal
marker (used by both the prompt search and the backtick option labels). -/
def promptMatchAfter (t : Chars) : Option Chars :=
  tryWsPrefix t (t.takeWhile isPySpace).length

/-- Scanner for
`re.search(r'\*\*Prompt\*\*:\s*["\']?(.+?)["\']?\s*$', content, re.MULTILINE)`. -/
def promptSearch : Chars → Option Chars
  | [] => none
  | l@(_ :: rest) =>
    if "**Prompt**:".data.isPrefixOf l then
      match promptMatchAfter (l.drop 11) with
      | some g => some g
      | none => promptSearch rest
    else promptSearch rest

/-- Matcher for the option line regex
`-\s*`([^`]+)`:\s*["\']?(.+?)["\']?$` applied to a stripped line; the
label is then stripped of quotes as in the source. -/
def p1OptMatch (s : Chars) : Option Opt2 :=
  match s with
  | '-' :: r0 =>
    match r0.dropWhile isPySpace with
    | '`' :: r2 =>
      let v := r2.takeWhile (fun c => ¬ (c = '`'))
      if v = [] then none
      else
        match r2.dropWhile (fun c => ¬ (c = '`')) with
        | '`' :: ':' :: r4 =>
          (promptMatchAfter r4).map (fun lab => ⟨v, pyStripChars quoteChars lab⟩)
        | _ => none
    | _ => none
  | _ => none

/-- The top-level options loop of `parse_question_content`
(lines 381–394 of the source). -/
def p1OptionsLoop : List Chars → Bool → List Opt2 → List Opt2
  | [], _, acc => acc
  | l :: rest, inOpts, acc =>
    if containsSub "**Options**".data l ∧ ':' ∈ l then p1OptionsLoop rest true acc
    else if inOpts then
      let s := pyStrip l
      if "- `".data.isPrefixOf s then
        match p1OptMatch s with
        | some o => p1OptionsLoop rest true (acc ++ [o])
        | none => p1OptionsLoop rest true acc
      else if "**".data.isPrefixOf s ∨ "---".data.isPrefixOf s then
        p1OptionsLoop rest false acc
      else p1OptionsLoop rest true acc
    else p1OptionsLoop rest false acc

/-- Matcher for the field definition regex
`^\d+\.\s*`([^`]+)`\s*\(([^)]+)\)(?::\s*"([^"]+)")?` with the given
quote character (the source tries `"` first, then `'`). -/
def p1FieldMatchQ (quote : Char) (s : Chars) : Option (Chars × Chars × Option Chars) :=
  let ds := s.takeWhile Char.isDigit
  if ds = [] then none
  else
    match s.drop ds.length with
    | '.' :: r1 =>
      match r1.dropWhile isPySpace with
      | '`' :: r3 =>
        let key := r3.takeWhile (fun c => ¬ (c = '`'))
        if key = [] then none
        else
          match r3.dropWhile (fun c => ¬ (c = '`')) with
          | '`' :: r4 =>
            match r4.dropWhile isPySpace with
            | '(' :: r6 =>
              let ti := r6.takeWhile (fun c => ¬ (c = ')'))
              if ti = [] then none
              else
                match r6.dropWhile (fun c => ¬ (c = ')')) with
                | ')' :: r7 =>
                  let label? :=
                    match r7 with
                    | ':' :: r8 =>
                      match r8.dropWhile isPySpace with
                      | q :: r10 =>
                        if q = quote then
                          let lab := r10.takeWhile (fun c => ¬ (c = quote))
                          if lab ≠ [] ∧
                              r10.dropWhile (fun c => ¬ (c = quote)) ≠ [] then
                            some lab
                          else none
                        else none
                      | [] => none
                    | _ => none
                  some (key, ti, label?)
                | _ => none
            | _ => none
          | _ => none
      | _ => none
    | _ => none

/-- Both quote variants of the field definition matcher, in source
order. -/
def p1FieldMatch (s : Chars) : Option (Chars × Chars × Option Chars) :=
  match p1FieldMatchQ '"' s with
  | some r => some r
  | none => p1FieldMatchQ '\'' s

/-- Scanner for `re.search(r'(\d+)-(\d+)', type_info)`. -/
def rangeSearch : Chars → Option (Nat × Nat)
  | [] => none
  | l@(c :: rest) =>
    if c.isDigit then
      let d1 := l.takeWhile Char.isDigit
      match l.drop d1.length with
      | '-' :: r2 =>
        let d2 := r2.takeWhile Char.isDigit
        if d2 ≠ [] then some (natVal d1, natVal d2) else rangeSearch rest
      | _ => rangeSearch rest
    else rangeSearch rest

/-- Scanner for `re.search(r'max\s*(\d+)', _)`. -/
def maxSearch : Chars → Option Nat
  | [] => none
  | l@(_ :: rest) =>
    if "max".data.isPrefixOf l then
      let d := ((l.drop 3).dropWhile isPySpace).takeWhile Char.isDigit
      if d ≠ [] then some (natVal d) else maxSearch rest
    else maxSearch rest

/-- Scanner for `re.search(r'showWhen\s+(\w+)', type_info)`
(case-sensitive, at least one whitespace character). -/
def showWhenSearch : Chars → Option Chars
  | [] => none
  | l@(_ :: rest) =>
    if "showWhen".data.isPrefixOf l then
      let after := l.drop 8
      if after.takeWhile isPySpace ≠ [] then
        let w := (after.dropWhile isPySpace).takeWhile isWordCh
        if w ≠ [] then some w else showWhenSearch rest
      else showWhenSearch rest
    else showWhenSearch rest

/-- The inline field construction of the phase-1 fields loop
(lines 429–466 of the source). -/
def buildField1 (key ti : Chars) (label? : Option Chars) : Field1 :=
  let label0 :=
    match label? with
    | some lab => lab
    | none => pyTitle (key.map (fun c => if c = '_' then ' ' else c))
  let tiLower := pyLower ti
  let f : Field1 :=
    { key := key, label := pyStrip label0, ftype := "short_text".data }
  let f :=
    if containsSub "ranked_select".data tiLower then
      { f with ftype := "ranked_select".data }
    else if containsSub "multi_select".data tiLower then
      { f with ftype := "multi_select".data }
    else if containsSub "single_select".data tiLower then
      { f with ftype := "single_select".data }
    else if containsSub "number".data tiLower then
      match rangeSearch ti with
      | some (lo, hi) =>
        { f with ftype := "number".data, min? := some (Int.ofNat lo),
                 max? := some (Int.ofNat hi) }
      | none => { f with ftype := "number".data }
    else if containsSub "free_text".data tiLower then
      { f with ftype := "free_text".data }
    else if containsSub "short_text".data tiLower then
      { f with ftype := "short_text".data }
    else f
  let f :=
    if containsSub "optional".data tiLower then
      { f with placeholder := some "Optional".data }
    else f
  let f :=
    match maxSearch tiLower with
    | some m =>
      if f.ftype = "multi_select".data ∨ f.ftype = "ranked_select".data then
        { f with validationMax := some (Int.ofNat m) }
      else f
    | none => f
  if containsSub "showWhen".data ti then
    match showWhenSearch ti with
    | some w => { f with showWhenEq := some (w, w) }
    | none => f
  else f

/-- Attach collected options to the field being flushed
(`if current_field_options: current_field["options"] = ...`). -/
def flushField1 : Option (Field1 × List Opt2) → List Field1
  | none => []
  | some (f, opts) =>
    [if opts = [] then f else { f with options := some opts }]

/-- The compound-fields loop of `parse_question_content`
(lines 401–492 of the source). -/
def p1FieldsLoop :
    List Chars → Bool → Option (Field1 × List Opt2) → List Field1 → List Field1
  | [], _, cur, acc => acc ++ flushField1 cur
  | l :: rest, inF, cur, acc =>
    if containsSub "**Fields**:".data l then p1FieldsLoop rest true cur acc
    else if inF then
      let s := pyStrip l
      match p1FieldMatch s with
      | some (key, ti, label?) =>
        p1FieldsLoop rest true (some (buildField1 key ti label?, []))
          (acc ++ flushField1 cur)
      | none =>
        if "- `".data.isPrefixOf s ∧ cur.isSome then
          match p1OptMatch s, cur with
          | some o, some (f, opts) =>
            p1FieldsLoop rest true (some (f, opts ++ [o])) acc
          | _, _ => p1FieldsLoop rest true cur acc
        else if "**".data.isPrefixOf s ∨ "---".data.isPrefixOf s then
          p1FieldsLoop rest false none (acc ++ flushField1 cur)
        else p1FieldsLoop rest true cur acc
    else p1FieldsLoop rest false cur acc

/-- The examples loop of `parse_question_content`
(lines 500–510 of the source). -/
def p1ExamplesLoop : List Chars → Bool → List Chars → List Chars
  | [], _, acc => acc
  | l :: rest, inEx, acc =>
    if containsSub "**Examples**:".data l then p1ExamplesLoop rest true acc
    else if inEx then
      if "-".data.isPrefixOf (pyStrip l) then
        p1ExamplesLoop rest true
          (acc ++ [pyStripChars quoteChars (pyStrip ((pyStrip l).drop 1))])
      else if "**".data.isPrefixOf (pyStrip l) ∨ pyStrip l = "---".data then
        p1ExamplesLoop rest false acc
      else p1ExamplesLoop rest true acc
    else p1ExamplesLoop rest false acc

/-- `generate_answer_schema` of `convert_questions_md.py` (the `options`
parameter of the source is unused by its body and omitted here). -/
def generateAnswerSchema (t : Chars) (fields : List Field1) :
    List (Chars × SVal) :=
  if t = "free_text".data then [("text".data, .str [])]
  else if t = "single_select".data then
    [("selected_value".data, .str []), ("other_text".data, .str []),
     ("notes".data, .str [])]
  else if t = "multi_select".data then
    [("selected_values".data, .list []), ("other_text".data, .str []),
     ("notes".data, .str [])]
  else if t = "compound".data ∧ fields ≠ [] then
    fields.foldl
      (fun m f =>
        if f.ftype = "multi_select".data ∨ f.ftype = "ranked_select".data then
          dictUpdate m f.key (.list [])
        else if f.ftype = "number".data then dictUpdate m f.key (.num 0)
        else dictUpdate m f.key (.str []))
      []
  else [("text".data, .str [])]

/-- `parse_question_content` of `convert_questions_md.py` (total: the
`if not block_data: return None` guard is unreachable because every call
site checks `current_question_block` first). -/
def parseQuestionContent (bd : BlockData) (sectionId : Chars) : Question1 :=
  let content := List.intercalate ['\n'] bd.lines
  let qtype0 :=
    match typeSearch content with
    | some w => pyLower w
    | none => "free_text".data
  let prompt :=
    match promptSearch content with
    | some p => pyStripChars quoteChars p
    | none => []
  let options := p1OptionsLoop bd.lines false []
  let fields := p1FieldsLoop bd.lines false none []
  let qtype := if fields ≠ [] then "compound".data else qtype0
  let examples := p1ExamplesLoop bd.lines false []
  { id := bd.qId, section_id := sectionId, order := bd.order,
    title := bd.title, prompt := prompt, qtype := qtype,
    answer_schema := generateAnswerSchema qtype fields,
    examples := examples,
    tags := if bd.isLite then ["lite".data, "full".data] else ["full".data],
    options := options, fields := fields }

/-- The mutable state of the `parse_markdown` line loop. -/
structure MDState where
  sections : List Section1
  questions : List (Chars × Question1)
  liteAcc : List Chars
  fullAcc : List Chars
  curSectionId : Option Chars
  curBlock : Option BlockData
  order : Nat
deriving Repr, Inhabited

/-- Append an id to the `question_ids` of the last section
(`sections[-1]["question_ids"].append(...)`). -/
def appendToLastSection (sections : List Section1) (qid : Chars) :
    List Section1 :=
  match sections with
  | [] => []
  | _ :: _ =>
    sections.dropLast ++
      (match sections.getLast? with
       | some s => [{ s with question_ids := s.question_ids ++ [qid] }]
       | none => [])

/-- The save-pending-question step shared by the three save sites of
`parse_markdown`; `toSection` is true at the two sites that also append
the id to the last section's `question_ids` (the section-header site
does not). -/
def mdSave (st : MDState) (toSection : Bool) : MDState :=
  match st.curBlock, st.curSectionId with
  | some bd, some sid =>
    let q := parseQuestionContent bd sid
    { st with
      questions := dictUpdate st.questions q.id q,
      sections :=
        if toSection then appendToLastSection st.sections q.id else st.sections,
      liteAcc :=
        if "lite".data ∈ q.tags then st.liteAcc ++ [q.id] else st.liteAcc,
      fullAcc := st.fullAcc ++ [q.id] }
  | _, _ => st

/-- The line loop of `parse_markdown`. -/
def mdLoop : List Chars → MDState → MDState
  | [], st => st
  | l :: rest, st =>
    match sectionHeaderMatch l with
    | some (ds, stitle) =>
      let st1 := mdSave st false
      let sid := 's' :: ds
      mdLoop rest
        { st1 with
          sections := st1.sections ++ [{ id := sid, title := stitle, question_ids := [] }],
          curSectionId := some sid,
          curBlock := none }
    | none =>
      match questionHeaderMatch l with
      | some (ds, isLite, title) =>
        let st1 := mdSave st true
        let order' := st1.order + 1
        mdLoop rest
          { st1 with
            order := order',
            curBlock := some
              { qId := 'q' :: zfill2 ds, isLite := isLite, title := title,
                order := order', sectionId := st1.curSectionId, lines := [] } }
      | none =>
        match st.curBlock with
        | some bd =>
          mdLoop rest { st with curBlock := some { bd with lines := bd.lines ++ [l] } }
        | none => mdLoop rest st

/-- `parse_markdown` of `convert_questions_md.py`: run the line loop,
save the trailing question, and assemble the document with the two
derived manifests. -/
def parseMarkdown (content : Chars) : Doc1 :=
  let st0 : MDState :=
    { sections := [], questions := [], liteAcc := [], fullAcc := [],
      curSectionId := none, curBlock := none, order := 0 }
  let st := mdSave (mdLoop (splitNl content) st0) true
  { sections := st.sections,
    questions := st.questions,
    lite :=
      { id := "lite".data, title := "Lite".data, question_ids := st.liteAcc,
        timebox_minutes := 60 },
    full :=
      { id := "full".data, title := "Full".data, question_ids := st.fullAcc,
        timebox_minutes := 120 },
    uiLiteCount := st.liteAcc.length,
    uiFullCount := st.fullAcc.length }

/-! ### Phase-2 aggregator: `data/phase_2/scripts/aggregate_questions.py` -/

/-- The questions-map construction of `aggregate_questions.main`: insert
every file's record under its `id` (later files overwrite earlier
ones). -/
def buildQuestionsMap (files : List Question2) : List (Chars × Question2) :=
  files.foldl (fun m q => dictUpdate m q.id q) []

/-- `included_in_manifests` tags of a map entry
(`questions_map[qid].get('tags', {}).get('included_in_manifests', [])`). -/
def tagsOf (m : List (Chars × Question2)) (k : Chars) : List Chars :=
  match dictGet m k with
  | some q => q.tags
  | none => []

/-- Stable insertion by `order` value (Python's `sorted` with an integer
key is a stable sort, so any stable implementation agrees with it). -/
def insertByOrder (m : List (Chars × Question2)) (x : Chars) :
    List Chars → List Chars
  | [] => [x]
  | y :: ys =>
    let ox := (dictGet m x).map Question2.order |>.getD 0
    let oy := (dictGet m y).map Question2.order |>.getD 0
    if ox < oy then x :: y :: ys else y :: insertByOrder m x ys

/-- `sorted(questions_map.keys(), key=lambda k: questions_map[k]['order'])`. -/
def sortQidsByOrder (m : List (Chars × Question2)) : List Chars :=
  (m.map Prod.fst).foldl (fun acc k => insertByOrder m k acc) []

/-- The manifest derivation of `aggregate_questions.main`: the lite and
full `question_ids` lists. -/
def aggregateManifests (m : List (Chars × Question2)) :
    List Chars × List Chars :=
  let sorted := sortQidsByOrder m
  (sorted.filter (fun k => "lite".data ∈ tagsOf m k),
   sorted.filter (fun k => "full".data ∈ tagsOf m k))

/-- The candidate key the collision loop examines at step `j`. -/
def fkCandidate (base : Chars) (counter : Nat) (key : Chars) : Nat → Chars
  | 0 => key
  | j + 1 => base ++ '_' :: natDigits (counter + j)

/-! ### Claim C10: the hard-coded `showWhen` rule -/

/-- A line that, inside a question block body, is neither blank nor a
prompt line, a mode switch, or the `Implementation notes` terminator —
i.e. a pure content line of a `ShowWhen:` (or any other) section. -/
abbrev neutralBodyLine (L : Chars) : Prop :=
  pyStrip L ≠ [] ∧
  ¬ "prompt:".data.isPrefixOf (pyLower (pyStrip L)) = true ∧
  ¬ "options:".data.isPrefixOf (pyLower (pyStrip L)) = true ∧
  ¬ "fields:".data.isPrefixOf (pyLower (pyStrip L)) = true ∧
  ¬ "showwhen:".data.isPrefixOf (pyLower (pyStrip L)) = true ∧
  ¬ "implementation notes".data.isPrefixOf (pyLower (pyStrip L)) = true

/-- The q30 block used to witness claim C10. -/
def c10Block : List Chars :=
  [ "q30 — Follow-up (free_text)".data, "ShowWhen:".data,
    "q29 in yes, unsure".data ]

/-- The parse of `c10Block`, spelled out. -/
def c10Question : Question2 :=
  { id := "q30".data, section_id := "s8".data, order := 30,
    title := "Follow-up".data, prompt := [], qtype := "free_text".data,
    answer_schema := [("text".data, .str [])], tags := ["full".data],
    options := [], fields := [],
    showWhen := some ⟨"q29".data, ["yes".data, "unsure".data]⟩ }

/-- The parse of the block `["q04 — Values (ranked_select)"]`. -/
def c4Question : Question2 :=
  { id := "q04".data, section_id := "s1".data, order := 4,
    title := "Values".data, prompt := [], qtype := "compound".data,
    answer_schema := [], tags := ["full".data], options := [], fields := [],
    showWhen := none }

/-! ### Claim C9: option value derivation -/

/-- The option-value function as the amended claim words it: the literal
`other` for labels containing the phrase `other (write in)`
(case-insensitively); otherwise, if the label's first word contains a
colon, that word with all colons removed, lower-cased; otherwise the
first three words joined with underscores, lower-cased, restricted to
`[a-z0-9_]`, truncated to 30 characters. -/
def claimOptionValue (label : Chars) : Chars :=
  if containsSub "other (write in)".data (pyLower label) then "other".data
  else
    match pySplitWs label with
    | [] => []
    | w :: _ =>
      if ':' ∈ w then pyLower (w.filter (fun c => ¬ (c = ':')))
      else
        ((pyLower (List.intercalate ['_'] ((pySplitWs label).take 3))).filter
          keepKeyChar).take 30

/-- Whether an `Except` value is a success (the Python statement did not
raise). -/
def exOk {ε α : Type} : Except ε α → Bool
  | .ok _ => true
  | .error _ => false

/-- A comma-separated option list every piece of which has a
non-whitespace character, so `clean_value` cannot raise on any piece. -/
def segsOk (r : Chars) : Bool :=
  (splitOnComma r).all (fun s => decide (¬ (pyStrip s = [])))

/-- Line shapes on which the parser loops cannot raise: every dash item
has a non-whitespace label and every inline comma-separated option list
has non-whitespace pieces — the complement of the `clean_value`
`IndexError` sites. -/
def safeLine (l : Chars) : Bool :=
  (!("-".data.isPrefixOf (pyStrip l)) ||
    decide (¬ (pyStrip ((pyStrip l).drop 2) = []))) &&
  (match optionMatch l with
   | some g1 => decide (¬ (pyStrip g1 = []))
   | none => true) &&
  (match labellessMatch l with
   | some (_, r0) => decide (pyStrip r0 = []) || segsOk (pyStrip r0)
   | none => true) &&
  (match fieldStartMatch l with
   | some (_, _, g3) => decide (fsRest2 g3 = []) || segsOk (fsRest2 g3)
   | none => true)

/-- The record parsed from the block `q02 — U (free_text)` (used to show
a failing block does not stop the next one). -/
def c3Question : Question2 :=
  { id := "q02".data, section_id := "s1".data, order := 2,
    title := "U".data, prompt := [], qtype := "free_text".data,
    answer_schema := [("text".data, .str [])],
    tags := ["lite".data, "full".data],
    options := [], fields := [], showWhen := none }

/-- The keys of the fields the `parse_fields` loop state holds (emitted
fields plus the field under construction). -/
def keysOf (st : PFState) : List Chars :=
  (st.fields ++ st.current.toList).map Field2.key

/-- The keys of a list with every literal `notes` key removed. -/
def nonNotes (ks : List Chars) : List Chars :=
  ks.filter (fun k => decide (¬ (k = "notes".data)))

/-- The loop invariant of `parse_fields`: keys other than the literal
`notes` are pairwise distinct and recorded in `existing_keys`. -/
def pfInv (st : PFState) : Prop :=
  (nonNotes (keysOf st)).Nodup ∧
  ∀ k ∈ keysOf st, ¬ (k = "notes".data) → k ∈ st.existing

/-- The multi_select field of the C5 counterexample block (label
`Notes!`, whose cleaned key is `notes` without the notes override). -/
def c5FieldA : Field2 :=
  ⟨"notes".data, "Notes!".data, "multi_select".data, none⟩

/-- The free_text field of the C5 counterexample block (label `Notes`,
key forced to `notes` by the override). -/
def c5FieldB : Field2 :=
  ⟨"notes".data, "Notes".data, "free_text".data, none⟩

/-- The question parsed from the C5 counterexample block. -/
def c5Question : Question2 :=
  { id := "q05".data, section_id := "s1".data, order := 5,
    title := "Profile".data, prompt := [], qtype := "compound".data,
    answer_schema := [("notes".data, .str [])],
    tags := ["lite".data, "full".data],
    options := [], fields := [c5FieldA, c5FieldB], showWhen := none }

/-- A concrete field for the C5 witness. -/
def c5Field : Field2 :=
  ⟨"pets".data, "Pets".data, "multi_select".data, none⟩

/-- The C1 failing document: a section lists `q99`, the questions map is
empty. -/
def c1Doc : VDoc :=
  { sections? := some [{ id := "s1".data, question_ids := ["q99".data] }],
    questions? := some [], manifests? := some [] }

/-- The C7 failing document: a question block directly followed by the
next section header. -/
def c7Doc : Chars :=
  "## Section 1: A\n### Q01 [LITE] — T1\n## Section 2: B\n### Q02 [FULL] — T2".data

/-- The ranked_select question of the C8 counterexample document (all
required fields present, no `options` key). -/
def c8RankedQ : VQuestion :=
  { id? := some "q01".data, section_id? := some "s1".data,
    order? := some 1, title? := some "T".data, prompt? := some "P".data,
    qtype? := some "ranked_select".data, answer_schema? := some [],
    examples? := some [], tags? := some ["full".data] }

/-- The C8 counterexample document for the schema validator. -/
def c8Doc : VDoc :=
  { sections? := some [{ id := "s1".data, question_ids := ["q01".data] }],
    questions? := some [("q01".data, c8RankedQ)], manifests? := some [] }

/-- The C8 counterexample file for the phase-2 validator: a
single_select question whose one option has neither value nor label. -/
def c8FQ : FQuestion :=
  { id? := some "q01".data, section_id? := some "s1".data,
    order? := some 1, title? := some "T".data, prompt? := some "P".data,
    qtype? := some "single_select".data, answer_schema? := some [],
    tags? := some ["full".data], options? := some (some [{}]) }

/-- A well-formed single_select question for the C8 witness. -/
def c8GoodQ : VQuestion :=
  { id? := some "q01".data, section_id? := some "s1".data,
    order? := some 1, title? := some "T".data, prompt? := some "P".data,
    qtype? := some "single_select".data, answer_schema? := some [],
    examples? := some [], tags? := some ["full".data],
    options? := some [⟨some "yes".data, some "Yes".data⟩] }

/-- A schema-validator document around `c8GoodQ`. -/
def c8GoodDoc : VDoc :=
  { sections? := some [{ id := "s1".data, question_ids := ["q01".data] }],
    questions? := some [("q01".data, c8GoodQ)], manifests? := some [] }

/-- A well-formed single_select file for the C8 witness. -/
def c8GoodFQ : FQuestion :=
  { id? := some "q01".data, section_id? := some "s1".data,
    order? := some 1, title? := some "T".data, prompt? := some "P".data,
    qtype? := some "single_select".data, answer_schema? := some [],
    tags? := some ["full".data],
    options? := some (some [⟨some "yes".data, some "Yes".data⟩]) }

/-- The `parse_markdown` loop invariant for claim C6: every stored
question was appended to the full accumulator and carries the `full`
tag; every accumulated id resolves in `questions`; the lite accumulator
is a subset of the full one; and — when the full accumulator has no
duplicates — lite membership coincides with the `lite` tag of the
stored record. -/
def MInv (st : MDState) : Prop :=
  (∀ qid q, dictGet st.questions qid = some q →
    qid ∈ st.fullAcc ∧ "full".data ∈ q.tags) ∧
  (∀ qid ∈ st.fullAcc, ∃ q, dictGet st.questions qid = some q) ∧
  (∀ qid ∈ st.liteAcc, qid ∈ st.fullAcc) ∧
  (st.fullAcc.Nodup → ∀ qid q, dictGet st.questions qid = some q →
    (qid ∈ st.liteAcc ↔ "lite".data ∈ q.tags))

/-- The C6 counterexample document: the same question number under two
different tags. -/
def c6Doc : Chars :=
  "## Section 1: A\n### Q05 [LITE] — T1\n### Q05 [FULL] — T2".data

/-- A duplicate-free document for the C6 witness. -/
def c6GoodDoc : Chars :=
  "## Section 1: A\n### Q01 [LITE] — T\n### Q02 [FULL] — U".data

/-- The record `parse_markdown` stores for `q01` of `c6GoodDoc`. -/
def c6Q : Question1 :=
  { id := "q01".data, section_id := "s1".data, order := 1,
    title := "T".data, prompt := [], qtype := "free_text".data,
    answer_schema := [("text".data, .str [])], examples := [],
    tags := ["lite".data, "full".data], options := [], fields := [] }

/-- A concrete aggregated question for the C6 witness. -/
def c6AggQ : Question2 :=
  { id := "q03".data, section_id := "s1".data, order := 3, title := [],
    prompt := [], qtype := "free_text".data, answer_schema := [],
    tags := ["lite".data, "full".data], options := [], fields := [],
    showWhen := none }

/-! ### Lemmas: decimal rendering and the collision-resolution loop -/

theorem natVal_append_digit (xs : Chars) (c : Char) :
    natVal (xs ++ [c]) = natVal xs * 10 + (c.toNat - 48) := by
  simp [natVal, List.foldl_append]

theorem digitChar_toNat {n : Nat} (h : n < 10) :
    (digitChar n).toNat = 48 + n := by
  interval_cases n <;> decide

theorem natVal_natDigitsAux {fuel n : Nat} (h : n ≤ fuel) :
    natVal (natDigitsAux fuel n) = n := by
  induction fuel generalizing n with
  | zero =>
    have : n = 0 := by omega
    subst this
    decide
  | succ fuel ih =>
    rw [natDigitsAux]
    by_cases h10 : n < 10
    · simp only [if_pos h10, natVal, List.foldl]
      rw [digitChar_toNat h10]
      omega
    · have hdiv : n / 10 ≤ fuel := by
        have := Nat.div_lt_self (by omega : 0 < n) (by omega : 1 < 10)
        omega
      rw [if_neg h10, natVal_append_digit, ih hdiv,
        digitChar_toNat (Nat.mod_lt n (by omega))]
      omega

theorem natVal_natDigits (n : Nat) : natVal (natDigits n) = n :=
  natVal_natDigitsAux (Nat.le_refl n)

theorem natDigits_injective : Function.Injective natDigits := by
  intro a b h
  have := congrArg natVal h
  rwa [natVal_natDigits, natVal_natDigits] at this

theorem freshKeyAux_not_mem {base : Chars} {keys : List Chars} :
    ∀ fuel counter key,
      (∃ j, j < fuel ∧ fkCandidate base counter key j ∉ keys) →
      freshKeyAux base keys fuel counter key ∉ keys := by
  intro fuel
  induction fuel with
  | zero =>
    intro counter key h
    rcases h with ⟨j, hj, _⟩
    omega
  | succ fuel ih =>
    intro counter key h
    rw [freshKeyAux]
    by_cases hk : key ∈ keys
    · rw [if_pos hk]
      apply ih
      rcases h with ⟨j, hj, hc⟩
      match j with
      | 0 => exact absurd hk (by simpa [fkCandidate] using hc)
      | j' + 1 =>
        refine ⟨j', by omega, ?_⟩
        match j' with
        | 0 => simpa [fkCandidate] using hc
        | j'' + 1 =>
          have : counter + 1 + j'' = counter + (j'' + 1) := by omega
          simpa [fkCandidate, this] using hc
    · rwa [if_neg hk]

theorem mkSuffix_injective (base : Chars) :
    Function.Injective (fun n => base ++ '_' :: natDigits n) := by
  intro a b h
  simp only [List.append_cancel_left_eq, List.cons.injEq, true_and] at h
  exact natDigits_injective h

theorem freshKey_not_mem (base : Chars) (keys : List Chars) :
    freshKey base keys ∉ keys := by
  apply freshKeyAux_not_mem
  by_contra hall
  push_neg at hall
  -- every candidate with index below `keys.length + 2` lies in `keys`
  have hmem : ∀ i < keys.length + 1,
      (base ++ '_' :: natDigits (2 + i)) ∈ keys := by
    intro i hi
    have := hall (i + 1) (by omega)
    simpa [fkCandidate] using this
  set cand : List Chars :=
    (List.range (keys.length + 1)).map (fun i => base ++ '_' :: natDigits (2 + i))
    with hcand
  have hnodup : cand.Nodup := by
    refine List.Nodup.map ?_ (List.nodup_range _)
    intro a b hab
    have h2 : 2 + a = 2 + b := mkSuffix_injective base (by simpa using hab)
    omega
  have hsub : cand ⊆ keys := by
    intro x hx
    rw [hcand, List.mem_map] at hx
    rcases hx with ⟨i, hi, rfl⟩
    exact hmem i (by simpa using hi)
  have hle := (hnodup.subperm hsub).length_le
  have hlen : cand.length = keys.length + 1 := by simp [hcand]
  omega

/-! ### Lemmas: strings, stripping, substring containment -/

theorem containsSub_iff {sub l : Chars} : containsSub sub l = true ↔ sub <:+: l := by
  induction l with
  | nil => simp [containsSub]
  | cons c rest ih =>
    simp [containsSub, List.infix_cons_iff, ih]

theorem lstripSuffix (l : Chars) : pyLStrip l <:+ l := List.dropWhile_suffix _

theorem rstripPre (l : Chars) : pyRStrip l <+: l := by
  have h := List.dropWhile_suffix (l := l.reverse) isPySpace
  have h2 := List.reverse_prefix.mpr h
  simpa [pyRStrip] using h2

theorem stripInfix (l : Chars) : pyStrip l <:+: l :=
  List.IsInfix.trans ( List.IsPrefix.isInfix (rstripPre _))
    ( List.IsSuffix.isInfix (lstripSuffix _))

theorem lstrip_of_lstripped {l : Chars} (h : pyLStrip l = l) :
    pyLStrip (pyRStrip l) = pyRStrip l := by
  match l, h with
  | [], _ => simp [pyRStrip, pyLStrip]
  | c :: t, h =>
    have hc : isPySpace c = false := by
      cases hx : isPySpace c
      · rfl
      · exfalso
        rw [pyLStrip, List.dropWhile_cons, if_pos hx] at h
        have hsub : List.Sublist (List.dropWhile isPySpace t) t :=
          List.IsSuffix.sublist ( List.dropWhile_suffix isPySpace)
        have hlen := List.Sublist.length_le hsub
        have := congrArg List.length h
        simp at this
        omega
    rcases rstripPre (c :: t) with ⟨s, hs⟩
    rcases hr : pyRStrip (c :: t) with _ | ⟨c', t'⟩
    · simp [pyLStrip]
    · rw [hr] at hs
      have hcc : c' = c := by
        have hs2 : c' :: (t' ++ s) = c :: t := by simpa using hs
        injection hs2 with h1 h2
      subst hcc
      simp [pyLStrip, List.dropWhile_cons, hc]

theorem rstrip_idem (l : Chars) : pyRStrip (pyRStrip l) = pyRStrip l := by
  show (((l.reverse.dropWhile isPySpace).reverse.reverse.dropWhile isPySpace)).reverse =
    (l.reverse.dropWhile isPySpace).reverse
  rw [List.reverse_reverse, List.dropWhile_idempotent]

theorem pyStrip_idem (l : Chars) : pyStrip (pyStrip l) = pyStrip l := by
  have h1 : pyLStrip (pyLStrip l) = pyLStrip l := by
    show List.dropWhile isPySpace (List.dropWhile isPySpace l) =
      List.dropWhile isPySpace l
    rw [List.dropWhile_idempotent]
  rw [pyStrip, pyStrip, lstrip_of_lstripped h1, rstrip_idem]

theorem splitWsAux_eq_nil {t : Chars} :
    ∀ {acc : Chars}, splitWsAux t acc = [] → acc = [] ∧ ∀ c ∈ t, isPySpace c := by
  induction t with
  | nil =>
    intro acc h
    by_cases hacc : acc = [] <;> simp [splitWsAux, hacc] at h ⊢
  | cons c rest ih =>
    intro acc h
    by_cases hc : isPySpace c
    · simp only [splitWsAux, if_pos hc] at h
      rcases List.append_eq_nil.mp h with ⟨h1, h2⟩
      have hrest := ih h2
      refine ⟨?_, ?_⟩
      · by_cases hacc : acc = []
        · exact hacc
        · simp [hacc] at h1
      · intro x hx
        rcases List.mem_cons.mp hx with rfl | hx2
        · exact hc
        · exact hrest.2 x hx2
    · simp only [splitWsAux, if_neg hc] at h
      have := (ih h).1
      simp at this

theorem pyLStrip_eq_nil_of_all {t : Chars} (h : ∀ c ∈ t, isPySpace c) :
    pyLStrip t = [] := by
  induction t with
  | nil => rfl
  | cons c rest ih =>
    simp only [pyLStrip, List.dropWhile_cons]
    rw [if_pos (h c (by simp))]
    exact ih (fun x hx => h x (by simp [hx]))

theorem pySplitWs_ne_nil {t : Chars} (h : pyStrip t ≠ []) : pySplitWs t ≠ [] := by
  intro hnil
  have hall := (splitWsAux_eq_nil hnil).2
  have : pyLStrip t = [] := pyLStrip_eq_nil_of_all hall
  rw [pyStrip, this] at h
  exact h rfl

/-- `clean_value` never raises on an argument that has a non-whitespace
character (its strip being non-empty). -/
theorem cleanValue_ok {t : Chars} (h : pyStrip t ≠ []) :
    ∃ v, cleanValue t = .ok v := by
  cases hcv : cleanValue t with
  | ok v => exact ⟨v, rfl⟩
  | error e =>
    exfalso
    rw [cleanValue] at hcv
    by_cases hphp : containsSub "other (write in)".data (pyLower t) = true
    · rw [if_pos hphp] at hcv
      cases hcv
    · rw [if_neg hphp] at hcv
      split at hcv
      next heq => exact pySplitWs_ne_nil h heq
      next w tail heq => split at hcv <;> cases hcv

theorem traverseOpts_ok {opts : List Chars}
    (h : ∀ o ∈ opts, pyStrip o ≠ []) : ∃ l, traverseOpts opts = .ok l := by
  induction opts with
  | nil => exact ⟨[], rfl⟩
  | cons o rest ih =>
    rcases cleanValue_ok (h o (by simp)) with ⟨v, hv⟩
    rcases ih (fun x hx => h x (by simp [hx])) with ⟨tl, htl⟩
    exact ⟨_, by rw [traverseOpts, hv, htl]⟩

/-! ### Lemmas: association-list dictionaries -/

theorem dictGet_update_self {α : Type} (m : List (Chars × α)) (k : Chars) (v : α) :
    dictGet (dictUpdate m k v) k = some v := by
  rw [dictUpdate]
  by_cases hmem : m.any (fun p => p.1 = k)
  · rw [if_pos hmem]
    induction m with
    | nil => simp at hmem
    | cons p rest ih =>
      simp only [List.map_cons]
      by_cases hp : p.1 = k
      · rw [if_pos hp, dictGet, List.find?_cons_of_pos _ (by simp)]
        rfl
      · rw [if_neg hp, dictGet, List.find?_cons_of_neg _ (by simpa using hp)]
        have hrest : rest.any (fun q => q.1 = k) := by
          rcases List.any_eq_true.mp hmem with ⟨q, hq, hqk⟩
          rcases List.mem_cons.mp hq with rfl | hq2
          · exact absurd (by simpa using hqk) hp
          · exact List.any_eq_true.mpr ⟨q, hq2, hqk⟩
        have := ih hrest
        rw [dictGet] at this
        exact this
  · rw [if_neg hmem, dictGet, List.find?_append]
    have hnone : m.find? (fun p => p.1 = k) = none := by
      rw [List.find?_eq_none]
      intro x hx
      simp only [decide_eq_true_eq]
      intro hxk
      exact hmem (List.any_eq_true.mpr ⟨x, hx, by simpa using hxk⟩)
    rw [hnone, List.find?_cons_of_pos _ (by simp)]
    rfl

theorem find?_keyMap {α : Type} (m : List (Chars × α)) {k k' : Chars} (v : α)
    (h : k' ≠ k) :
    (m.map (fun p => if p.1 = k then (k, v) else p)).find? (fun p => p.1 = k') =
    m.find? (fun p => p.1 = k') := by
  induction m with
  | nil => rfl
  | cons p rest ih =>
    simp only [List.map_cons]
    by_cases hp : p.1 = k
    · rw [if_pos hp]
      rw [List.find?_cons_of_neg _ (by simpa using fun hh => h hh.symm),
        List.find?_cons_of_neg _
          (by simp only [decide_eq_true_eq, hp]; exact fun hh => h hh.symm),
        ih]
    · rw [if_neg hp]
      by_cases hp' : p.1 = k'
      · rw [List.find?_cons_of_pos _ (by simpa using hp'),
          List.find?_cons_of_pos _ (by simpa using hp')]
      · rw [List.find?_cons_of_neg _ (by simpa using hp'),
          List.find?_cons_of_neg _ (by simpa using hp'), ih]

theorem dictGet_update_ne {α : Type} (m : List (Chars × α)) {k k' : Chars}
    (v : α) (h : k' ≠ k) : dictGet (dictUpdate m k v) k' = dictGet m k' := by
  rw [dictUpdate]
  by_cases hmem : m.any (fun p => p.1 = k)
  · rw [if_pos hmem, dictGet, find?_keyMap m v h, dictGet]
  · rw [if_neg hmem, dictGet, List.find?_append, dictGet]
    have : ([((k, v) : Chars × α)].find? (fun p => p.1 = k')) = none := by
      rw [List.find?_cons_of_neg _ (by simpa using fun hh => h hh.symm)]
      rfl
    rw [this]
    cases m.find? (fun p => p.1 = k') <;> rfl

theorem mem_keys_update {α : Type} (m : List (Chars × α)) (k : Chars) (v : α)
    (x : Chars) :
    x ∈ (dictUpdate m k v).map Prod.fst ↔ x ∈ m.map Prod.fst ∨ x = k := by
  rw [dictUpdate]
  by_cases hmem : m.any (fun p => p.1 = k)
  · rw [if_pos hmem]
    rcases List.any_eq_true.mp hmem with ⟨p0, hp0, hp0k⟩
    simp only [decide_eq_true_eq] at hp0k
    simp only [List.map_map, List.mem_map, Function.comp]
    constructor
    · rintro ⟨p, hp, rfl⟩
      by_cases hpk : p.1 = k
      · right; simp [hpk]
      · left; exact ⟨p, hp, by simp [hpk]⟩
    · rintro (⟨p, hp, rfl⟩ | rfl)
      · by_cases hpk : p.1 = k
        · exact ⟨p, hp, by simp [hpk]⟩
        · exact ⟨p, hp, by simp [hpk]⟩
      · exact ⟨p0, hp0, by simp [hp0k]⟩
  · rw [if_neg hmem, List.map_append, List.mem_append]
    simp only [List.map_cons, List.map_nil, List.mem_singleton]

/-! ### Lemmas: the field-start matcher and the terminator phrases -/

theorem fieldStartAux_g1_pre {t : Chars} :
    ∀ {seen rest : Chars} {g1 : Chars} {ti : Option Chars} {g3 : Chars},
      t = seen.reverse ++ rest →
      fieldStartAux seen rest = some (g1, ti, g3) → g1 <+: t := by
  intro seen rest
  induction rest generalizing seen with
  | nil => intro g1 ti g3 _ h; cases h
  | cons c rest ih =>
    intro g1 ti g3 ht h
    rw [fieldStartAux] at h
    cases hstep : fieldStartStep rest with
    | none =>
      rw [hstep] at h
      exact ih (by simp [ht]) h
    | some r =>
      rcases r with ⟨ti', g3'⟩
      rw [hstep] at h
      cases h
      exact ⟨rest, by simp [ht]⟩

theorem fieldStartMatch_infixLabel {l g1 : Chars} {ti : Option Chars}
    {g3 : Chars} (h : fieldStartMatch l = some (g1, ti, g3)) : g1 <:+: l := by
  rcases l with _ | ⟨c1, l1⟩
  · exact Option.noConfusion h
  rcases l1 with _ | ⟨c2, t⟩
  · exact Option.noConfusion h
  rw [fieldStartMatch] at h
  by_cases hc : c1 = '-' ∧ c2 = ' '
  · rw [if_pos hc] at h
    rcases hc with ⟨rfl, rfl⟩
    have hpre : g1 <+: t := fieldStartAux_g1_pre (by simp) h
    have hsuf : t <:+ '-' :: ' ' :: t := ⟨['-', ' '], rfl⟩
    exact List.IsInfix.trans ( List.IsPrefix.isInfix hpre)
      ( List.IsSuffix.isInfix hsuf)
  · rw [if_neg hc] at h
    exact Option.noConfusion h

/-- A phrase that starts the stripped, lowered label of a matched field
line occurs as a substring of the lowered line itself; used to show the
terminator-label checks inside `parse_fields` are unreachable past the
line-level break test. -/
theorem phraseInLine {l g1 : Chars} {ti : Option Chars} {g3 : Chars}
    {phrase : Chars} (hm : fieldStartMatch l = some (g1, ti, g3))
    (hpre : phrase.isPrefixOf (pyLower (pyStrip g1)) = true) :
    containsSub phrase (pyLower l) = true := by
  have h1 : pyStrip g1 <:+: g1 := stripInfix g1
  have h2 : g1 <:+: l := fieldStartMatch_infixLabel hm
  have h3 : pyLower (pyStrip g1) <:+: pyLower l :=
    List.IsInfix.map Char.toLower (List.IsInfix.trans h1 h2)
  have h4 : phrase <+: pyLower (pyStrip g1) := List.isPrefixOf_iff_prefix.mp hpre
  exact containsSub_iff.mpr
    (List.IsInfix.trans ( List.IsPrefix.isInfix h4) h3)

/-! ### Lemmas: the compound answer-schema fold -/

theorem schemaFold_keys (fs : List Field2) :
    ∀ (m : List (Chars × SVal)) (x : Chars),
      (x ∈ (fs.foldl (fun m f => dictUpdate m f.key (fieldShape f)) m).map
        Prod.fst) ↔ x ∈ m.map Prod.fst ∨ x ∈ fs.map Field2.key := by
  induction fs with
  | nil =>
    intro m x
    simp only [List.foldl_nil, List.map_nil, List.not_mem_nil, or_false]
  | cons f rest ih =>
    intro m x
    rw [List.foldl_cons, ih, mem_keys_update]
    simp only [List.map_cons, List.mem_cons]
    tauto

theorem schemaFold_get (fs : List Field2) :
    ∀ (m : List (Chars × SVal)), (fs.map Field2.key).Nodup →
      (∀ f ∈ fs,
        dictGet (fs.foldl (fun m f => dictUpdate m f.key (fieldShape f)) m)
          f.key = some (fieldShape f)) ∧
      (∀ k, k ∉ fs.map Field2.key →
        dictGet (fs.foldl (fun m f => dictUpdate m f.key (fieldShape f)) m) k =
          dictGet m k) := by
  induction fs with
  | nil =>
    intro m _
    exact ⟨fun f hf => absurd hf (List.not_mem_nil f), fun k _ => rfl⟩
  | cons f rest ih =>
    intro m hnd
    simp only [List.map_cons, List.nodup_cons] at hnd
    rcases hnd with ⟨hf, hrest⟩
    rcases ih (dictUpdate m f.key (fieldShape f)) hrest with ⟨ih1, ih2⟩
    constructor
    · intro g hg
      rcases List.mem_cons.mp hg with rfl | hg2
      · rw [List.foldl_cons, ih2 g.key (by simpa using hf),
          dictGet_update_self]
      · exact ih1 g hg2
    · intro k hk
      simp only [List.map_cons, List.mem_cons] at hk
      push_neg at hk
      rw [List.foldl_cons, ih2 k (by simpa using hk.2),
        dictGet_update_ne m _ (by simpa using hk.1)]

theorem bodyLoop_skip_after_showWhen {L : Chars} (hL : neutralBodyLine L) :
    ∀ (pre post : List Chars) (st : BState),
      bodyLoop (pre ++ "ShowWhen:".data :: L :: post) st =
      bodyLoop (pre ++ "ShowWhen:".data :: post) st := by
  rcases hL with ⟨h1, h2, h3, h4, h5, h6⟩
  intro pre
  induction pre with
  | nil =>
    intro post st
    simp only [List.nil_append]
    have e1 : bodyLoop ("ShowWhen:".data :: L :: post) st =
        bodyLoop (L :: post) { st with mode := BMode.showWhen } := rfl
    have e2 : bodyLoop ("ShowWhen:".data :: post) st =
        bodyLoop post { st with mode := BMode.showWhen } := rfl
    rw [e1, e2, bodyLoop]
    simp only [if_neg h1, if_neg h2, if_neg h3, if_neg h4, if_neg h5, if_neg h6]
  | cons p pre ih =>
    intro post st
    simp only [List.cons_append]
    rw [bodyLoop, bodyLoop]
    simp only []
    by_cases hb1 : pyStrip p = []
    · simp only [if_pos hb1]
      exact ih post st
    simp only [if_neg hb1]
    by_cases hb2 : "prompt:".data.isPrefixOf (pyLower (pyStrip p)) = true
    · simp only [if_pos hb2]
      exact ih post _
    simp only [if_neg hb2]
    by_cases hb3 : "options:".data.isPrefixOf (pyLower (pyStrip p)) = true
    · simp only [if_pos hb3]
      exact ih post _
    simp only [if_neg hb3]
    by_cases hb4 : "fields:".data.isPrefixOf (pyLower (pyStrip p)) = true
    · simp only [if_pos hb4]
      exact ih post _
    simp only [if_neg hb4]
    by_cases hb5 : "showwhen:".data.isPrefixOf (pyLower (pyStrip p)) = true
    · simp only [if_pos hb5]
      exact ih post _
    simp only [if_neg hb5]
    by_cases hb6 : "implementation notes".data.isPrefixOf (pyLower (pyStrip p)) = true
    · simp only [if_pos hb6]
    simp only [if_neg hb6]
    cases hm : st.mode with
    | options =>
      by_cases hb7 : "-".data.isPrefixOf (pyStrip p) = true
      · simp only [if_pos hb7]
        cases cleanValue (pyStrip ((pyStrip p).drop 2)) with
        | error e => rfl
        | ok v => exact ih post _
      · simp only [if_neg hb7]
        exact ih post st
    | fields => exact ih post _
    | prompt => exact ih post _
    | showWhen => exact ih post _

theorem processQuestionBlock_showWhen_iff {block : List Chars} {s : Chars}
    {q : Question2} (h : processQuestionBlock block s = .ok (some q)) :
    q.showWhen =
      (if q.id = "q30".data then
        some (⟨"q29".data, ["yes".data, "unsure".data]⟩ : ShowWhen2)
      else none) := by
  rcases block with _ | ⟨header0, body⟩
  · exact Except.noConfusion h
  simp only [processQuestionBlock, processBlockCore] at h
  split at h
  · injection h with h2
    exact Option.noConfusion h2
  · split at h
    · exact Except.noConfusion h
    · split at h
      · exact Except.noConfusion h
      · injection h with h2
        injection h2 with h3
        subst h3
        rfl

/-- Claim C10 (confirmed): a question produced by the phase-2
`process_question_block` carries a `showWhen` attribute exactly when its
id is `q30`, in which case it is the fixed rule referencing `q29` and the
values `yes`/`unsure`; and a content line following a `ShowWhen:` mode
switch contributes nothing to the parse (removing it leaves the result
unchanged). -/
theorem claim_C10_showWhen_hardcoded :
    (∀ (block : List Chars) (s : Chars) (q : Question2),
      processQuestionBlock block s = .ok (some q) →
      ((q.id = "q30".data →
        q.showWhen =
          some (⟨"q29".data, ["yes".data, "unsure".data]⟩ : ShowWhen2)) ∧
       (q.id ≠ "q30".data → q.showWhen = none))) ∧
    (∀ (header L : Chars) (pre post : List Chars) (s : Chars),
      neutralBodyLine L →
      processQuestionBlock (header :: pre ++ "ShowWhen:".data :: L :: post) s =
      processQuestionBlock (header :: pre ++ "ShowWhen:".data :: post) s) := by
  constructor
  · intro block s q h
    have hsw := processQuestionBlock_showWhen_iff h
    constructor
    · intro hid
      rwa [if_pos hid] at hsw
    · intro hid
      rwa [if_neg hid] at hsw
  · intro header L pre post s hL
    have hb := bodyLoop_skip_after_showWhen hL pre post
      ⟨[], [], [], BMode.prompt⟩
    show processBlockCore header (pre ++ "ShowWhen:".data :: L :: post) s =
      processBlockCore header (pre ++ "ShowWhen:".data :: post) s
    simp only [processBlockCore, hb]

/-- Witness for claim C10: both conjuncts instantiated on the concrete
`q30` block, whose `ShowWhen:` content line is discarded. -/
theorem claim_C10_witness :
    c10Question.showWhen =
      some (⟨"q29".data, ["yes".data, "unsure".data]⟩ : ShowWhen2) ∧
    processQuestionBlock c10Block "s8".data =
      processQuestionBlock (c10Block.take 2) "s8".data :=
  ⟨(claim_C10_showWhen_hardcoded.1 c10Block "s8".data c10Question
      (by rfl)).1 rfl,
   claim_C10_showWhen_hardcoded.2 "q30 — Follow-up (free_text)".data
     "q29 in yes, unsure".data [] [] "s8".data (by decide)⟩

/-! ### Claim C4: question-type selection from the header -/

theorem digit_ne_emdash {c : Char} (h : c.isDigit = true) : ¬ (c = '—') := by
  intro h2
  subst h2
  exact absurd h (by decide)

theorem qidMatch_header {ds r : Chars} (hds : ds ≠ [])
    (hdig : ∀ c ∈ ds, c.isDigit) :
    qidMatch ('q' :: (ds ++ ' ' :: r)) = some ds := by
  rw [qidMatch]
  rw [List.takeWhile_append_of_pos hdig,
    List.takeWhile_cons_of_neg (by decide), List.append_nil, if_neg hds]

theorem splitOnce_at_sep {sep : Char} {a b : Chars} (h : ∀ c ∈ a, ¬ (c = sep)) :
    splitOnce sep (a ++ sep :: b) = (a, some b) := by
  rw [splitOnce]
  have hb : ∀ (x : Chars), (sep :: x).takeWhile (fun c => ¬ (c = sep)) = [] := by
    intro x
    rw [List.takeWhile_cons]
    simp
  have ht : (a ++ sep :: b).takeWhile (fun c => ¬ (c = sep)) = a := by
    rw [List.takeWhile_append_of_pos (by simpa using h), hb, List.append_nil]
  have hd : (a ++ sep :: b).dropWhile (fun c => ¬ (c = sep)) = sep :: b := by
    rw [List.dropWhile_append]
    have ha : a.dropWhile (fun c => ¬ (c = sep)) = [] := by
      rw [List.dropWhile_eq_nil_iff]
      intro x hx
      simpa using h x hx
    rw [ha]
    simp [List.dropWhile_cons]
  rw [ht, hd]

theorem pyRStrip_last_not_space {l : Chars} {c : Char}
    (h : isPySpace c = false) : pyRStrip (l ++ [c]) = l ++ [c] := by
  rw [pyRStrip, List.reverse_append]
  simp only [List.reverse_cons, List.reverse_nil, List.nil_append,
    List.singleton_append, List.dropWhile_cons, h]
  simp

theorem searchParenEndAux_found {tok : Chars} (hk1 : tok ≠ [])
    (hk2 : ')' ∉ tok) :
    ∀ (u seen : Chars), '(' ∉ u → ')' ∉ u →
      searchParenEndAux seen (u ++ '(' :: (tok ++ [')'])) =
        some (seen.reverse ++ u, tok) := by
  intro u
  induction u with
  | nil =>
    intro seen _ _
    simp only [List.nil_append]
    rw [searchParenEndAux, if_pos rfl]
    have htk : (tok ++ [')']).takeWhile (fun c => ¬ (c = ')')) = tok := by
      rw [List.takeWhile_append_of_pos
        (by intro a ha
            simp only [decide_eq_true_eq]
            intro hh
            subst hh
            exact hk2 ha),
        List.takeWhile_cons_of_neg (by simp), List.append_nil]
    have hdk : (tok ++ [')']).dropWhile (fun c => ¬ (c = ')')) = [')'] := by
      rw [List.dropWhile_append]
      have hnil : tok.dropWhile (fun c => ¬ (c = ')')) = [] := by
        rw [List.dropWhile_eq_nil_iff]
        intro x hx
        simp only [decide_eq_true_eq, Decidable.not_not]
        intro hh
        subst hh
        exact hk2 hx
      rw [hnil]
      simp [List.dropWhile_cons]
    simp only [htk, hdk]
    simp [hk1]
  | cons c u ih =>
    intro seen hcu1 hcu2
    have hc : ¬ (c = '(') := fun hh => hcu1 (by simp [hh])
    simp only [List.cons_append]
    rw [searchParenEndAux, if_neg hc]
    rw [ih (c :: seen) (fun hh => hcu1 (by simp [hh]))
      (fun hh => hcu2 (by simp [hh]))]
    simp

theorem parseHeaderTitleType_spec {ds title tok : Chars}
    (hdig : ∀ c ∈ ds, c.isDigit) (ht1 : '(' ∉ title) (ht2 : ')' ∉ title)
    (hk1 : tok ≠ []) (hk2 : ')' ∉ tok) :
    (parseHeaderTitleType
      ('q' :: (ds ++ " — ".data ++ title ++ " (".data ++ tok ++ ")".data))).2 =
    pyLower tok := by
  have hsplit :
      splitOnce '—'
        ('q' :: (ds ++ " — ".data ++ title ++ " (".data ++ tok ++ ")".data)) =
      ('q' :: ds ++ [' '], some (' ' :: (title ++ ' ' :: '(' :: (tok ++ [')'])))) := by
    have heq :
        ('q' :: (ds ++ " — ".data ++ title ++ " (".data ++ tok ++ ")".data)) =
        ('q' :: ds ++ [' ']) ++ '—' :: (' ' :: (title ++ ' ' :: '(' :: (tok ++ [')']))) := by
      simp [List.append_assoc]
    rw [heq]
    apply splitOnce_at_sep
    intro c hc
    rcases List.mem_cons.mp hc with rfl | hc2
    · decide
    rcases List.mem_append.mp hc2 with hc3 | hc4
    · exact digit_ne_emdash (hdig c hc3)
    · intro hh
      rcases List.mem_singleton.mp hc4 with rfl
      exact absurd hh (by decide)
  rw [parseHeaderTitleType, hsplit]
  -- strip the remainder and locate the trailing parenthesised token
  have hstripped :
      pyStrip (' ' :: (title ++ ' ' :: '(' :: (tok ++ [')']))) =
      ((' ' :: title ++ [' ']).dropWhile isPySpace) ++ '(' :: (tok ++ [')']) := by
    have harr : (' ' :: (title ++ ' ' :: '(' :: (tok ++ [')']))) =
        (' ' :: title ++ [' ']) ++ ('(' :: (tok ++ [')'])) := by
      simp
    rw [pyStrip, pyLStrip, harr, List.dropWhile_append]
    have hpb : (('(' :: (tok ++ [')'])).dropWhile isPySpace) =
        '(' :: (tok ++ [')']) := by
      rw [List.dropWhile_cons, if_neg (by decide)]
    by_cases he : ((' ' :: title ++ [' ']).dropWhile isPySpace).isEmpty = true
    · rw [if_pos he, hpb]
      have : ((' ' :: title ++ [' ']).dropWhile isPySpace) = [] :=
        List.isEmpty_iff.mp he
      rw [this, List.nil_append]
      have harr2 : ('(' : Char) :: (tok ++ [')']) =
          ('(' :: tok) ++ [')'] := by simp
      rw [harr2, pyRStrip_last_not_space (by decide)]
    · rw [if_neg he]
      have harr2 : ((' ' :: title ++ [' ']).dropWhile isPySpace) ++
          '(' :: (tok ++ [')']) =
          (((' ' :: title ++ [' ']).dropWhile isPySpace) ++ '(' :: tok) ++ [')'] := by
        simp
      rw [harr2, pyRStrip_last_not_space (by decide)]
  simp only []
  rw [hstripped]
  have hu1 : '(' ∉ (' ' :: title ++ [' ']).dropWhile isPySpace := by
    intro hmem
    have hsub := List.IsSuffix.subset ( List.dropWhile_suffix isPySpace) hmem
    rcases List.mem_cons.mp hsub with hq | hsub2
    · exact absurd hq.symm (by decide)
    rcases List.mem_append.mp hsub2 with h3 | h4
    · exact ht1 h3
    · exact absurd ((List.mem_singleton.mp h4)).symm (by decide)
  have hu2 : ')' ∉ (' ' :: title ++ [' ']).dropWhile isPySpace := by
    intro hmem
    have hsub := List.IsSuffix.subset ( List.dropWhile_suffix isPySpace) hmem
    rcases List.mem_cons.mp hsub with hq | hsub2
    · exact absurd hq.symm (by decide)
    rcases List.mem_append.mp hsub2 with h3 | h4
    · exact ht2 h3
    · exact absurd ((List.mem_singleton.mp h4)).symm (by decide)
  rw [searchParenEnd, searchParenEndAux_found hk1 hk2 _ [] hu1 hu2]

/-- Claim C4, counterexample: a header annotated `(ranked_select)` does
not yield question type `ranked_select` as the claim states — the
phase-2 converter maps it to `compound` (line 202 of
`convert_questions.py`). -/
theorem claim_C4_counterexample :
    processQuestionBlock ["q04 — Values (ranked_select)".data] "s1".data =
      .ok (some c4Question) ∧
    c4Question.qtype = "compound".data ∧
    ¬ c4Question.qtype = "ranked_select".data :=
  ⟨by rfl, rfl, by decide⟩

/-- Claim C4 (amended): for a question header of the form
`q<digits> — <title> (<token>)` (title free of parentheses, token free of
closing parentheses), the parsed question's id is `q<digits>` and its
type is selected by case-insensitive substring containment, tried in the
order `compound`, `single_select`, `multi_select`, `ranked_select` —
with `ranked_select` mapped to `compound`, not to itself — and
`free_text` otherwise. -/
theorem claim_C4_type_selection {ds title tok : Chars} (hds : ds ≠ [])
    (hdig : ∀ c ∈ ds, c.isDigit) (ht1 : '(' ∉ title) (ht2 : ')' ∉ title)
    (hk1 : tok ≠ []) (hk2 : ')' ∉ tok) :
    ∀ (body : List Chars) (s : Chars) (q : Question2),
      processQuestionBlock
        (('q' :: (ds ++ " — ".data ++ title ++ " (".data ++ tok ++ ")".data))
          :: body) s = .ok (some q) →
      q.id = 'q' :: ds ∧
      q.qtype =
        (if containsSub "compound".data (pyLower tok) = true then
          "compound".data
        else if containsSub "single_select".data (pyLower tok) = true then
          "single_select".data
        else if containsSub "multi_select".data (pyLower tok) = true then
          "multi_select".data
        else if containsSub "ranked_select".data (pyLower tok) = true then
          "compound".data
        else "free_text".data) := by
  intro body s q h
  have hstrip : pyStrip
      ('q' :: (ds ++ " — ".data ++ title ++ " (".data ++ tok ++ ")".data)) =
      'q' :: (ds ++ " — ".data ++ title ++ " (".data ++ tok ++ ")".data) := by
    rw [pyStrip, pyLStrip, List.dropWhile_cons, if_neg (by decide)]
    have harr : ('q' :: (ds ++ " — ".data ++ title ++ " (".data ++ tok ++ ")".data)) =
        ('q' :: (ds ++ " — ".data ++ title ++ " (".data ++ tok)) ++ [')'] := by
      simp
    rw [harr, pyRStrip_last_not_space (by decide)]
  have hqm : qidMatch
      (pyStrip ('q' :: (ds ++ " — ".data ++ title ++ " (".data ++ tok ++ ")".data))) =
      some ds := by
    rw [hstrip]
    have harr : (ds ++ " — ".data ++ title ++ " (".data ++ tok ++ ")".data) =
        ds ++ ' ' :: ("— ".data ++ title ++ " (".data ++ tok ++ ")".data) := by
      simp
    rw [harr]
    exact qidMatch_header hds hdig
  have htt := parseHeaderTitleType_spec hdig ht1 ht2 hk1 hk2
  simp only [processQuestionBlock, processBlockCore, hqm] at h
  rw [hstrip] at h
  split at h
  · exact Except.noConfusion h
  · split at h
    · exact Except.noConfusion h
    · injection h with h2
      injection h2 with h3
      subst h3
      refine ⟨rfl, ?_⟩
      simp only [htt]
      rfl

/-- Witness for claim C4: the amended theorem applied to the concrete
header `q04 — Values (ranked_select)`, whose parsed type is `compound`. -/
theorem claim_C4_witness :
    c4Question.id = 'q' :: "04".data ∧ c4Question.qtype = "compound".data := by
  have h := @claim_C4_type_selection "04".data "Values".data
    "ranked_select".data (by decide) (by decide) (by decide) (by decide)
    (by decide) (by decide) [] "s1".data c4Question (by rfl)
  exact ⟨h.1, by rw [h.2]; decide⟩

theorem cleanValue_eq_claim {label : Chars} (h : pySplitWs label ≠ []) :
    cleanValue label = .ok (claimOptionValue label) := by
  rw [cleanValue, claimOptionValue]
  by_cases hph :
      containsSub "other (write in)".data (pyLower label) = true
  · rw [if_pos hph, if_pos hph]
  · rw [if_neg hph, if_neg hph]
    rcases hsp : pySplitWs label with _ | ⟨w, rest⟩
    · exact absurd hsp h
    · show (if ':' ∈ w then
          (Except.ok (pyLower (w.filter (fun c => ¬ (c = ':')))) :
            Except PyErr Chars)
        else
          .ok (((pyLower (List.intercalate ['_'] ((w :: rest).take 3))).filter
            keepKeyChar).take 30)) =
        .ok (if ':' ∈ w then pyLower (w.filter (fun c => ¬ (c = ':')))
          else ((pyLower (List.intercalate ['_'] ((w :: rest).take 3))).filter
            keepKeyChar).take 30)
      by_cases hw : ':' ∈ w
      · rw [if_pos hw, if_pos hw]
      · rw [if_neg hw, if_neg hw]

theorem lstrip_eq_self_of_strip {l : Chars} (h : pyStrip l = l) :
    pyLStrip l = l := by
  have hsuf : pyLStrip l <:+ l := lstripSuffix l
  have hpre : pyStrip l <+: pyLStrip l := rstripPre (pyLStrip l)
  have hlen1 := List.Sublist.length_le (List.IsSuffix.sublist hsuf)
  have hlen2 := List.Sublist.length_le (List.IsPrefix.sublist hpre)
  have hlen3 : l.length = (pyStrip l).length := by rw [h]
  exact List.Sublist.eq_of_length (List.IsSuffix.sublist hsuf) (by omega)

theorem rstrip_reverse_eq {l : Chars} (h : pyStrip l = l) :
    l.reverse.dropWhile isPySpace = l.reverse := by
  have hl : pyLStrip l = l := lstrip_eq_self_of_strip h
  have hr : pyRStrip l = l := by
    have := h
    rw [pyStrip, hl] at this
    exact this
  rw [pyRStrip] at hr
  have := congrArg List.reverse hr
  rwa [List.reverse_reverse] at this

theorem pyStrip_dash_item {label : Chars} (h1 : pyStrip label = label)
    (h2 : label ≠ []) :
    pyStrip ('-' :: ' ' :: label) = '-' :: ' ' :: label := by
  have hrev := rstrip_reverse_eq h1
  rcases hc : label.reverse with _ | ⟨c, r⟩
  · exact absurd (by simpa using congrArg List.reverse hc) h2
  have hcws : isPySpace c = false := by
    rw [hc] at hrev
    cases hx : isPySpace c
    · rfl
    · exfalso
      rw [List.dropWhile_cons, if_pos hx] at hrev
      have hsub : List.Sublist (List.dropWhile isPySpace r) r :=
        List.IsSuffix.sublist ( List.dropWhile_suffix isPySpace)
      have hlen := List.Sublist.length_le hsub
      have := congrArg List.length hrev
      simp at this
      omega
  rw [pyStrip, pyLStrip, List.dropWhile_cons, if_neg (by decide)]
  rw [pyRStrip]
  have harr : ('-' :: ' ' :: label).reverse = c :: (r ++ [' ', '-']) := by
    simp [List.reverse_cons, hc]
  rw [harr, List.dropWhile_cons, if_neg (by simp [hcws]), ← harr,
    List.reverse_reverse]

/-- Claim C9, counterexample: for the label `a:b` the claim's rule
("the value is that token lower-cased", i.e. the part before the colon,
`a`) disagrees with the code, which removes every colon from the whole
first word and yields `ab`. -/
theorem claim_C9_counterexample :
    cleanValue "a:b".data = .ok "ab".data ∧ ¬ ("ab".data : Chars) = "a".data := by
  exact ⟨by rfl, by decide⟩

theorem bodyLoop_option_line {label : Chars} (h1 : pyStrip label = label)
    (h2 : label ≠ []) :
    bodyLoop ["Options:".data, '-' :: ' ' :: label]
      ⟨[], [], [], BMode.prompt⟩ =
    .ok ⟨[], [⟨claimOptionValue label, label⟩], [], BMode.options⟩ := by
  have e1 : bodyLoop ["Options:".data, '-' :: ' ' :: label]
      ⟨[], [], [], BMode.prompt⟩ =
      bodyLoop ['-' :: ' ' :: label] ⟨[], [], [], BMode.options⟩ := rfl
  rw [e1, bodyLoop]
  simp only [pyStrip_dash_item h1 h2]
  show (match cleanValue (pyStrip label) with
    | .error e => (Except.error e : Except PyErr BState)
    | .ok v =>
      bodyLoop []
        ⟨[], [(⟨v, pyStrip label⟩ : Opt2)], [], BMode.options⟩) =
    .ok ⟨[], [⟨claimOptionValue label, label⟩], [], BMode.options⟩
  rw [h1, cleanValue_eq_claim (pySplitWs_ne_nil (by rw [h1]; exact h2))]
  rfl

/-- Claim C9 (amended): the concrete warm-up scenario parses exactly as
the spec's scenario 1 describes, and in general the value of an option
line `- <label>` is: the literal `other` when the label contains the
phrase `other (write in)` case-insensitively; otherwise, when the
label's first word contains a colon, that whole word with all colons
removed and lower-cased (not merely the part before the colon);
otherwise the first three words joined by underscores, lower-cased,
restricted to `[a-z0-9_]` and truncated to 30 characters. -/
theorem claim_C9_option_values :
    (processQuestionBlock
      [ "q01 — Warm-up (single_select)".data, "Options:".data,
        "- Yes".data, "- No".data ] "s1".data =
      .ok (some
        { id := "q01".data, section_id := "s1".data, order := 1,
          title := "Warm-up".data, prompt := [],
          qtype := "single_select".data,
          answer_schema :=
            [("selected_value".data, .str []), ("other_text".data, .str []),
             ("notes".data, .str [])],
          tags := ["lite".data, "full".data],
          options := [⟨"yes".data, "Yes".data⟩, ⟨"no".data, "No".data⟩],
          fields := [], showWhen := none })) ∧
    (∀ label : Chars, pyStrip label = label → label ≠ [] →
      processQuestionBlock
        [ "q05 — Pets (single_select)".data, "Options:".data,
          '-' :: ' ' :: label ] "s1".data =
      .ok (some
        { id := "q05".data, section_id := "s1".data, order := 5,
          title := "Pets".data, prompt := [],
          qtype := "single_select".data,
          answer_schema :=
            [("selected_value".data, .str []), ("other_text".data, .str []),
             ("notes".data, .str [])],
          tags := ["lite".data, "full".data],
          options := [⟨claimOptionValue label, label⟩],
          fields := [], showWhen := none })) ∧
    (∀ label : Chars, pySplitWs label ≠ [] →
      cleanValue label = .ok (claimOptionValue label)) := by
  refine ⟨by rfl, ?_, fun label h => cleanValue_eq_claim h⟩
  intro label h1 h2
  have e1 : processQuestionBlock
      [ "q05 — Pets (single_select)".data, "Options:".data,
        '-' :: ' ' :: label ] "s1".data =
      (match bodyLoop ["Options:".data, '-' :: ' ' :: label]
          ⟨[], [], [], BMode.prompt⟩ with
       | .error e => (Except.error e : Except PyErr (Option Question2))
       | .ok bst =>
          match (if bst.fieldLines = [] then .ok [] else
              parseFields bst.fieldLines : Except PyErr (List Field2)) with
          | .error e => .error e
          | .ok fieldsData =>
            .ok (some
              { id := "q05".data, section_id := "s1".data, order := 5,
                title := "Pets".data, prompt := bst.prompt,
                qtype := "single_select".data,
                answer_schema :=
                  buildSchema "single_select".data fieldsData,
                tags := ["lite".data, "full".data],
                options := bst.options, fields := fieldsData,
                showWhen := none })) := rfl
  rw [e1, bodyLoop_option_line h1 h2]
  rfl

/-- Witness for claim C9: the amended theorem's general clauses applied
to the concrete label `Other (write in)`, together with the scenario
conjunct. -/
theorem claim_C9_witness :
    processQuestionBlock
      [ "q05 — Pets (single_select)".data, "Options:".data,
        '-' :: ' ' :: "Other (write in)".data ] "s1".data =
    .ok (some
      { id := "q05".data, section_id := "s1".data, order := 5,
        title := "Pets".data, prompt := [],
        qtype := "single_select".data,
        answer_schema :=
          [("selected_value".data, .str []), ("other_text".data, .str []),
           ("notes".data, .str [])],
        tags := ["lite".data, "full".data],
        options :=
          [⟨claimOptionValue "Other (write in)".data,
            "Other (write in)".data⟩],
        fields := [], showWhen := none }) :=
  claim_C9_option_values.2.1 "Other (write in)".data (by decide) (by decide)

theorem exOk_ex {ε α : Type} {e : Except ε α} (h : exOk e = true) :
    ∃ a, e = .ok a := by
  cases e with
  | ok a => exact ⟨a, rfl⟩
  | error e2 => exact Bool.noConfusion h

theorem safeLine_parts {l : Chars} (h : safeLine l = true) :
    ("-".data.isPrefixOf (pyStrip l) = true →
      ¬ (pyStrip ((pyStrip l).drop 2) = [])) ∧
    (∀ g1, optionMatch l = some g1 → ¬ (pyStrip g1 = [])) ∧
    (∀ tr r0, labellessMatch l = some (tr, r0) →
      pyStrip r0 = [] ∨ segsOk (pyStrip r0) = true) ∧
    (∀ g1 ti g3, fieldStartMatch l = some (g1, ti, g3) →
      fsRest2 g3 = [] ∨ segsOk (fsRest2 g3) = true) := by
  simp only [safeLine, Bool.and_eq_true] at h
  obtain ⟨⟨⟨h1, h2⟩, h3⟩, h4⟩ := h
  refine ⟨?_, ?_, ?_, ?_⟩
  · intro hp
    rw [hp, Bool.not_true, Bool.false_or] at h1
    exact of_decide_eq_true h1
  · intro g1 hg
    rw [hg] at h2
    exact of_decide_eq_true h2
  · intro tr r0 hg
    rw [hg] at h3
    simp only [Bool.or_eq_true] at h3
    rcases h3 with hc | hc
    · exact Or.inl (of_decide_eq_true hc)
    · exact Or.inr hc
  · intro g1 ti g3 hg
    rw [hg] at h4
    simp only [Bool.or_eq_true] at h4
    rcases h4 with hc | hc
    · exact Or.inl (of_decide_eq_true hc)
    · exact Or.inr hc

theorem traverseOpts_ok_of_segsOk {r : Chars} (h : segsOk r = true) :
    ∃ l, traverseOpts ((splitOnComma r).map pyStrip) = .ok l := by
  apply traverseOpts_ok
  intro o ho
  rcases List.mem_map.mp ho with ⟨s, hs, rfl⟩
  have hst := List.all_eq_true.mp h s hs
  rw [pyStrip_idem]
  exact of_decide_eq_true hst

theorem parseFieldsLoop_exOk (lines : List Chars) :
    ∀ st : PFState, (∀ l ∈ lines, safeLine l = true) →
    exOk (parseFieldsLoop lines st) = true := by
  induction lines with
  | nil => intro st _; rfl
  | cons l rest ih =>
    intro st h
    obtain ⟨hd, hopt, hlab, hfsp⟩ := safeLine_parts (h l (by simp))
    have hrest : ∀ x ∈ rest, safeLine x = true := fun x hx => h x (by simp [hx])
    simp only [parseFieldsLoop]
    split
    · exact ih st hrest
    · split
      · rfl
      · split
        next g1 cf hg hc =>
          obtain ⟨v, hv⟩ :=
            cleanValue_ok (t := pyStrip g1)
              (by rw [pyStrip_idem]; exact hopt g1 hg)
          simp only [hv]
          exact ih _ hrest
        next =>
          split
          · split
            next tr r0 hlm =>
              split
              · exact ih _ hrest
              next hne =>
                rcases hlab tr r0 hlm with hcase | hcase
                · exact absurd hcase hne
                · obtain ⟨opts, hto⟩ := traverseOpts_ok_of_segsOk hcase
                  split
                  next e heq => exact Except.noConfusion (heq.symm.trans hto)
                  next opts2 heq => exact ih _ hrest
            next =>
              split
              next g1 ti g3 hfm =>
                split
                · exact ih _ hrest
                · split
                  next hcond =>
                    rcases hfsp g1 ti g3 hfm with hcase | hcase
                    · exact absurd hcase hcond.1
                    · obtain ⟨opts, hto⟩ := traverseOpts_ok_of_segsOk hcase
                      split
                      next e heq => exact Except.noConfusion (heq.symm.trans hto)
                      next opts2 heq => exact ih _ hrest
                  next hcond => exact ih _ hrest
              next => exact ih _ hrest
          · exact ih _ hrest

theorem bodyLoop_exOk (lines : List Chars) :
    ∀ st : BState, (∀ l ∈ lines, safeLine l = true) →
    exOk (bodyLoop lines st) = true := by
  induction lines with
  | nil => intro st _; rfl
  | cons l rest ih =>
    intro st h
    obtain ⟨hd, _, _, _⟩ := safeLine_parts (h l (by simp))
    have hrest : ∀ x ∈ rest, safeLine x = true := fun x hx => h x (by simp [hx])
    simp only [bodyLoop]
    split
    · exact ih st hrest
    split
    · exact ih _ hrest
    split
    · exact ih _ hrest
    split
    · exact ih _ hrest
    split
    · exact ih _ hrest
    split
    · rfl
    split
    · split
      next hpre =>
        obtain ⟨v, hv⟩ := cleanValue_ok (t := pyStrip ((pyStrip l).drop 2))
          (by rw [pyStrip_idem]; exact hd hpre)
        simp only [hv]
        exact ih _ hrest
      next hpre => exact ih _ hrest
    · exact ih _ hrest
    · exact ih _ hrest

theorem bodyLoop_fieldLines_mem (lines : List Chars) :
    ∀ st st2 : BState, bodyLoop lines st = .ok st2 →
    ∀ x ∈ st2.fieldLines, x ∈ lines ∨ x ∈ st.fieldLines := by
  induction lines with
  | nil =>
    intro st st2 heq x hx
    cases heq
    exact Or.inr hx
  | cons l rest ih =>
    intro st st2 heq x hx
    simp only [bodyLoop] at heq
    split at heq
    · exact (ih st st2 heq x hx).imp (List.mem_cons_of_mem l) id
    split at heq
    · exact (ih _ st2 heq x hx).imp (List.mem_cons_of_mem l) id
    split at heq
    · exact (ih _ st2 heq x hx).imp (List.mem_cons_of_mem l) id
    split at heq
    · exact (ih _ st2 heq x hx).imp (List.mem_cons_of_mem l) id
    split at heq
    · exact (ih _ st2 heq x hx).imp (List.mem_cons_of_mem l) id
    split at heq
    · cases heq
      exact Or.inr hx
    split at heq
    · split at heq
      · split at heq
        · cases heq
        · exact (ih _ st2 heq x hx).imp (List.mem_cons_of_mem l) id
      · exact (ih _ st2 heq x hx).imp (List.mem_cons_of_mem l) id
    · rcases ih _ st2 heq x hx with hm | hm
      · exact Or.inl (List.mem_cons_of_mem l hm)
      · rcases List.mem_append.mp hm with hm2 | hm2
        · exact Or.inr hm2
        · exact Or.inl (by
            rw [List.mem_singleton.mp hm2]
            exact List.mem_cons_self l rest)
    · exact (ih _ st2 heq x hx).imp (List.mem_cons_of_mem l) id

theorem processQuestionBlock_safe {header : Chars} {body : List Chars}
    {s : Chars} (h : ∀ l ∈ body, safeLine l = true) :
    ∃ r, processQuestionBlock (header :: body) s = .ok r := by
  apply exOk_ex
  simp only [processQuestionBlock, processBlockCore]
  split
  · rfl
  next ds hq =>
    split
    next e heq =>
      have hb := bodyLoop_exOk body ⟨[], [], [], .prompt⟩ h
      rw [heq] at hb
      exact Bool.noConfusion hb
    next bst heq =>
      split
      next e heq2 =>
        have hsafe : ∀ x ∈ bst.fieldLines, safeLine x = true := by
          intro x hx
          rcases bodyLoop_fieldLines_mem body _ _ heq x hx with hx1 | hx2
          · exact h x hx1
          · exact absurd hx2 (List.not_mem_nil x)
        by_cases hfl : bst.fieldLines = []
        · rw [if_pos hfl] at heq2
          cases heq2
        · rw [if_neg hfl] at heq2
          have hpf := parseFieldsLoop_exOk bst.fieldLines ⟨[], none, []⟩ hsafe
          rw [parseFields] at heq2
          cases hex : parseFieldsLoop bst.fieldLines ⟨[], none, []⟩ with
          | error e2 =>
            rw [hex] at hpf
            exact Bool.noConfusion hpf
          | ok stf =>
            rw [hex] at heq2
            cases heq2
      next fieldsData heq2 => rfl

/-- Claim C3, counterexample: an option line consisting of the bare dash
`-` — a line shape from the input contract (an option line introduced by
`-`) — makes `process_question_block` raise `IndexError` through
`clean_value` (`words[0]` on an empty split), so block parsing CAN raise
on contract-shaped input; the per-block `try/except` of `main` still
isolates the failure and the next block is processed normally. -/
theorem claim_C3_counterexample :
    processQuestionBlock
      ["q01 — T (single_select)".data, "Options:".data, "-".data]
      "s1".data = .error .indexError ∧
    processAllBlocks
      [(["q01 — T (single_select)".data, "Options:".data, "-".data],
        "s1".data),
       (["q02 — U (free_text)".data], "s1".data)] =
      [.error .indexError, .ok (some c3Question)] := ⟨rfl, rfl⟩

/-- Claim C3 (amended): block processing never raises on lines whose
dash items and inline option lists have non-whitespace content
(`safeLine`) — malformed headers are skipped (`.ok none`) and
unrecognized types default rather than raising — and one block's failure
never aborts the others, since `main` wraps each block in its own
try/except (the block results are independent). -/
theorem claim_C3_leniency :
    (∀ header body s, (∀ l ∈ body, safeLine l = true) →
      ∃ r, processQuestionBlock (header :: body) s = .ok r) ∧
    (∀ bs1 b bs2, processAllBlocks (bs1 ++ b :: bs2) =
      processAllBlocks bs1 ++
        processQuestionBlock b.1 b.2 :: processAllBlocks bs2) := by
  constructor
  · intro header body s h
    exact processQuestionBlock_safe h
  · intro bs1 b bs2
    simp [processAllBlocks]

/-- Witness for claim C3: the leniency theorem applied to a concrete
well-shaped block, with the `safeLine` side condition decided. -/
theorem claim_C3_witness :
    ∃ r, processQuestionBlock
      ["q07 — Mood (multi_select)".data, "Options:".data, "- Calm".data,
       "- Anxious, mostly".data] "s1".data = .ok r :=
  claim_C3_leniency.1 "q07 — Mood (multi_select)".data
    ["Options:".data, "- Calm".data, "- Anxious, mostly".data]
    "s1".data (by decide)

theorem pfKey_push (labelRaw : Chars) (st : PFState) (k0 : Chars)
    (h0 : k0 ∉ st.existing) :
    pfKey labelRaw k0 = "notes".data ∨
    (pfKey labelRaw k0 = k0 ∧ k0 ∉ st.existing) := by
  rw [pfKey]
  by_cases hn : "notes".data ∈ pySplitWs (pyLower labelRaw)
  · rw [if_pos hn]
    exact Or.inl rfl
  · rw [if_neg hn]
    exact Or.inr ⟨rfl, h0⟩

theorem pfInv_push {st : PFState} {f : Field2} {e : Chars} (hinv : pfInv st)
    (hnew : f.key = "notes".data ∨ (f.key = e ∧ e ∉ st.existing)) :
    pfInv { fields := st.fields ++ st.current.toList, current := some f,
            existing := e :: st.existing } := by
  obtain ⟨hnd, hmem⟩ := hinv
  have hkeys : keysOf ⟨st.fields ++ st.current.toList, some f,
      e :: st.existing⟩ = keysOf st ++ [f.key] := by
    simp [keysOf]
  constructor
  · rw [hkeys]
    simp only [nonNotes, List.filter_append]
    by_cases hkn : f.key = "notes".data
    · rw [show List.filter (fun k => decide (¬ (k = "notes".data)))
        [f.key] = [] from by simp [hkn]]
      rw [List.append_nil]
      exact hnd
    · rw [show List.filter (fun k => decide (¬ (k = "notes".data)))
        [f.key] = [f.key] from by simp [hkn]]
      have hfe : f.key = e ∧ e ∉ st.existing := by
        rcases hnew with h | h
        · exact absurd h hkn
        · exact h
      refine (List.Perm.nodup_iff (List.perm_append_singleton _ _)).mpr ?_
      rw [List.nodup_cons]
      refine ⟨?_, hnd⟩
      intro hcon
      rw [List.mem_filter] at hcon
      exact hfe.2 (hfe.1 ▸ hmem f.key hcon.1 hkn)
  · intro k hk hknn
    rw [hkeys] at hk
    rcases List.mem_append.mp hk with h | h
    · exact List.mem_cons_of_mem e (hmem k h hknn)
    · rcases hnew with h2 | h2
      · rw [List.mem_singleton.mp h] at hknn
        exact absurd h2 hknn
      · rw [List.mem_singleton.mp h, h2.1]
        exact List.mem_cons_self e st.existing

theorem pfInv_opt {st : PFState} {cf : Field2} {o : Option (List Opt2)}
    (hc : st.current = some cf) (hinv : pfInv st) :
    pfInv { st with current := some { cf with options := o } } := by
  have hkeys : keysOf { st with current := some { cf with options := o } } =
      keysOf st := by
    simp [keysOf, hc]
  obtain ⟨hnd, hmem⟩ := hinv
  exact ⟨by rw [hkeys]; exact hnd, fun k hk h => hmem k (hkeys ▸ hk) h⟩

theorem parseFieldsLoop_inv (lines : List Chars) :
    ∀ st st2 : PFState, parseFieldsLoop lines st = .ok st2 →
    pfInv st → pfInv st2 := by
  induction lines with
  | nil =>
    intro st st2 heq hinv
    cases heq
    exact hinv
  | cons l rest ih =>
    intro st st2 heq hinv
    simp only [parseFieldsLoop] at heq
    split at heq
    · exact ih _ _ heq hinv
    split at heq
    · cases heq
      exact hinv
    next hnb =>
      split at heq
      next g1 cf hg hc =>
        split at heq
        · cases heq
        next v hv => exact ih _ _ heq (pfInv_opt hc hinv)
      next =>
        split at heq
        · split at heq
          next tr r0 hlm =>
            split at heq
            · exact ih _ _ heq
                (pfInv_push hinv (Or.inr ⟨rfl, freshKey_not_mem _ _⟩))
            · split at heq
              next e2 h2 => cases heq
              next opts h2 =>
                exact ih _ _ heq
                  (pfInv_push hinv (Or.inr ⟨rfl, freshKey_not_mem _ _⟩))
          next =>
            split at heq
            next g1 ti g3 hfm =>
              split at heq
              next hterm =>
                exfalso
                apply hnb
                simp only [Bool.or_eq_true] at hterm ⊢
                rcases hterm with h | h
                · exact Or.inl (phraseInLine hfm h)
                · exact Or.inr (phraseInLine hfm h)
              next hterm =>
                split at heq
                next hcond =>
                  split at heq
                  next e2 h2 => cases heq
                  next opts h2 =>
                    exact ih _ _ heq
                      (pfInv_push hinv
                        (pfKey_push (pyStrip g1) st _ (freshKey_not_mem _ _)))
                next hcond =>
                  exact ih _ _ heq
                    (pfInv_push hinv
                      (pfKey_push (pyStrip g1) st _ (freshKey_not_mem _ _)))
            next => exact ih _ _ heq hinv
        · exact ih _ _ heq hinv

theorem parseFields_keys {lines : List Chars} {fs : List Field2}
    (h : parseFields lines = .ok fs) :
    (nonNotes (fs.map Field2.key)).Nodup := by
  rw [parseFields] at h
  cases hex : parseFieldsLoop lines ⟨[], none, []⟩ with
  | error e =>
    rw [hex] at h
    exact Except.noConfusion
      (show (Except.error e : Except PyErr (List Field2)) = .ok fs from h)
  | ok st2 =>
    rw [hex] at h
    have hinv : pfInv st2 :=
      parseFieldsLoop_inv lines _ _ hex ⟨by decide, by simp [keysOf]⟩
    cases hc : st2.current with
    | none =>
      have h5 : st2.fields ++ ([] : List Field2) = fs := by
        have h2 : (Except.ok (st2.fields ++
            (match st2.current with
             | some cf =>
               if pyLower cf.label = "implementation notes".data ∨
                  pyLower cf.label = "answer_schema".data then []
               else [cf]
             | none => [])) : Except PyErr (List Field2)) = .ok fs := h
        rw [hc] at h2
        exact Except.ok.inj h2
      rw [List.append_nil] at h5
      have hEq : nonNotes (fs.map Field2.key) = nonNotes (keysOf st2) := by
        simp [keysOf, hc, ← h5]
      rw [hEq]
      exact hinv.1
    | some cf =>
      have h5 : st2.fields ++
          (if pyLower cf.label = "implementation notes".data ∨
              pyLower cf.label = "answer_schema".data then []
           else [cf]) = fs := by
        have h2 : (Except.ok (st2.fields ++
            (match st2.current with
             | some cf =>
               if pyLower cf.label = "implementation notes".data ∨
                  pyLower cf.label = "answer_schema".data then []
               else [cf]
             | none => [])) : Except PyErr (List Field2)) = .ok fs := h
        rw [hc] at h2
        exact Except.ok.inj h2
      by_cases hp : pyLower cf.label = "implementation notes".data ∨
          pyLower cf.label = "answer_schema".data
      · rw [if_pos hp, List.append_nil] at h5
        have hsub : List.Sublist (st2.fields.map Field2.key) (keysOf st2) := by
          simp only [keysOf, hc, List.map_append]
          exact List.sublist_append_left _ _
        rw [← h5]
        exact List.Nodup.sublist (List.Sublist.filter _ hsub) hinv.1
      · rw [if_neg hp] at h5
        have hEq : nonNotes (fs.map Field2.key) = nonNotes (keysOf st2) := by
          simp [keysOf, hc, ← h5]
        rw [hEq]
        exact hinv.1

theorem freshKey_shape (base : Chars) (keys : List Chars) :
    freshKey base keys = base ∨
    ∃ n, 2 ≤ n ∧ freshKey base keys = base ++ '_' :: natDigits n := by
  rw [freshKey]
  have hgen : ∀ fuel counter key, 2 ≤ counter →
      (key = base ∨ ∃ n, 2 ≤ n ∧ key = base ++ '_' :: natDigits n) →
      (freshKeyAux base keys fuel counter key = base ∨
       ∃ n, 2 ≤ n ∧
         freshKeyAux base keys fuel counter key = base ++ '_' :: natDigits n) := by
    intro fuel
    induction fuel with
    | zero =>
      intro counter key _ hP
      exact hP
    | succ fuel ih =>
      intro counter key hc hP
      rw [freshKeyAux]
      by_cases hk : key ∈ keys
      · rw [if_pos hk]
        exact ih (counter + 1) _ (by omega) (Or.inr ⟨counter, hc, rfl⟩)
      · rw [if_neg hk]
        exact hP
  exact hgen _ 2 base (by omega) (Or.inl rfl)

/-- Claim C2, counterexample: two fields whose labels carry the word
`notes` both receive the literal key `notes` — the override happens
after the collision suffixing, so the colliding key is NOT resolved and
the parsed question has two fields with the same key. -/
theorem claim_C2_counterexample :
    parseFields ["- Notes".data, "- More notes".data] =
      .ok [⟨"notes".data, "Notes".data, "free_text".data, none⟩,
           ⟨"notes".data, "More notes".data, "free_text".data, none⟩] ∧
    ¬ ((([⟨"notes".data, "Notes".data, "free_text".data, none⟩,
          ⟨"notes".data, "More notes".data, "free_text".data, none⟩] :
         List Field2).map Field2.key).Nodup) := by
  exact ⟨by rfl, by decide⟩

/-- Claim C2 (amended): within one parsed question, keys OTHER than the
literal `notes` are pairwise distinct (the `notes` special-case assigns
its literal key after collision resolution, so notes-labelled fields can
collide); collision resolution itself always lands outside the existing
key set and yields the base key or `base_n` with a numeric suffix
`n ≥ 2`. -/
theorem claim_C2_key_uniqueness :
    (∀ lines fs, parseFields lines = .ok fs →
      ((fs.map Field2.key).filter
        (fun k => decide (¬ (k = "notes".data)))).Nodup) ∧
    (∀ base keys, freshKey base keys ∉ keys ∧
      (freshKey base keys = base ∨
        ∃ n, 2 ≤ n ∧ freshKey base keys = base ++ '_' :: natDigits n)) := by
  constructor
  · intro lines fs h
    exact parseFields_keys h
  · intro base keys
    exact ⟨freshKey_not_mem base keys, freshKey_shape base keys⟩

/-- Witness for claim C2: the uniqueness theorem applied to a concrete
one-field parse and a concrete collision. -/
theorem claim_C2_witness :
    ((([⟨"price".data, "Price".data, "short_text".data, none⟩] :
        List Field2).map Field2.key).filter
      (fun k => decide (¬ (k = "notes".data)))).Nodup ∧
    freshKey "choice".data ["choice".data, "choice_2".data] ∉
      ["choice".data, "choice_2".data] :=
  ⟨claim_C2_key_uniqueness.1 ["- Price".data] _ (by rfl),
   (claim_C2_key_uniqueness.2 "choice".data
     ["choice".data, "choice_2".data]).1⟩

theorem processQuestionBlock_schema {block : List Chars} {s : Chars}
    {q : Question2} (h : processQuestionBlock block s = .ok (some q)) :
    q.answer_schema = buildSchema q.qtype q.fields := by
  rcases block with _ | ⟨header0, body⟩
  · exact Except.noConfusion h
  simp only [processQuestionBlock, processBlockCore] at h
  split at h
  · exact Option.noConfusion (Except.ok.inj h)
  · split at h
    · exact Except.noConfusion h
    · split at h
      · exact Except.noConfusion h
      · have h2 := Option.some.inj (Except.ok.inj h)
        subst h2
        rfl

/-- Claim C5, counterexample: two compound fields with conflicting
types can share the key `notes` (one via the cleaned label `Notes!`,
one via the notes override), and the schema fold then keeps only the
LAST field's shape: the multi_select field's key maps to an empty
string instead of an empty sequence, so the per-field shape clause
fails on documents with colliding keys. -/
theorem claim_C5_counterexample :
    processQuestionBlock
      ["q05 — Profile (compound)".data, "Fields:".data,
       "- Notes! (multi_select)".data, "- Notes".data] "s1".data =
      .ok (some c5Question) ∧
    c5Question.fields.head? = some c5FieldA ∧
    c5FieldA.ftype = "multi_select".data ∧
    dictGet c5Question.answer_schema c5FieldA.key = some (.str []) ∧
    ¬ (SVal.str [] = fieldShape c5FieldA) := by
  exact ⟨by rfl, rfl, rfl, rfl, by decide⟩

/-- Claim C5 (amended): every parsed question's `answer_schema` is the
deterministic function `buildSchema` of its type and fields; the three
non-compound select/free shapes are exactly as specified; for compound
questions the schema's key set always equals the set of field keys, and
the per-field shape clause (multi_select/ranked_select field ↦ empty
sequence, other field ↦ empty string) holds whenever the field keys are
pairwise distinct — with colliding keys the last field wins. -/
theorem claim_C5_schema_synthesis :
    (∀ block s q, processQuestionBlock block s = .ok (some q) →
      q.answer_schema = buildSchema q.qtype q.fields) ∧
    (∀ fs : List Field2,
      buildSchema "free_text".data fs = [("text".data, .str [])] ∧
      buildSchema "single_select".data fs =
        [("selected_value".data, .str []), ("other_text".data, .str []),
         ("notes".data, .str [])] ∧
      buildSchema "multi_select".data fs =
        [("selected_values".data, .list []), ("other_text".data, .str []),
         ("notes".data, .str [])]) ∧
    (∀ fs : List Field2, ∀ x : Chars,
      x ∈ (buildSchema "compound".data fs).map Prod.fst ↔
        x ∈ fs.map Field2.key) ∧
    (∀ fs : List Field2, (fs.map Field2.key).Nodup →
      ∀ f ∈ fs, dictGet (buildSchema "compound".data fs) f.key =
        some (fieldShape f)) := by
  have hcomp : ∀ fs : List Field2, buildSchema "compound".data fs =
      fs.foldl (fun m f => dictUpdate m f.key (fieldShape f)) [] :=
    fun fs => rfl
  refine ⟨?_, fun fs => ⟨rfl, rfl, rfl⟩, ?_, ?_⟩
  · intro block s q h
    exact processQuestionBlock_schema h
  · intro fs x
    rw [hcomp, schemaFold_keys]
    simp
  · intro fs hnd f hf
    rw [hcomp]
    exact (schemaFold_get fs [] hnd).1 f hf

/-- Witness for claim C5: the synthesis theorem applied to a concrete
parsed block and a concrete duplicate-free compound field list. -/
theorem claim_C5_witness :
    (({ id := "q01".data, section_id := "s1".data, order := 1,
        title := "T".data, prompt := [], qtype := "free_text".data,
        answer_schema := [("text".data, .str [])],
        tags := ["lite".data, "full".data], options := [], fields := [],
        showWhen := none } : Question2).answer_schema =
      buildSchema "free_text".data []) ∧
    dictGet (buildSchema "compound".data [c5Field]) c5Field.key =
      some (fieldShape c5Field) :=
  ⟨claim_C5_schema_synthesis.1 ["q01 — T (free_text)".data] "s1".data _
      (by rfl),
   claim_C5_schema_synthesis.2.2.2 [c5Field] (by decide) c5Field
      (by decide)⟩

/-- Claim C1: REFUTED (code bug).  The schema validator PASSes a
document whose section lists a question id that resolves to no entry of
`questions`: `_check_references` only checks each question's
`section_id`, `_check_duplicates` skips ids not in `questions`, and
`_check_orphans` only looks at the reverse direction, so no check
resolves a section's `question_ids` against `questions` and a PASS does
not imply the section-level referential-integrity invariant. -/
theorem claim_C1_false_pass :
    validateStatus allChecks false c1Doc = .pass ∧
    validateStatus allChecks true c1Doc = .pass ∧
    "q99".data ∈ (c1Doc.sections?.getD []).flatMap VSection.question_ids ∧
    dictGet (c1Doc.questions?.getD []) "q99".data = none := by
  exact ⟨by decide, by decide, by decide, rfl⟩

/-- Claim C7: REFUTED (code bug).  When a pending question is saved
because a new SECTION header begins, `parse_markdown` stores the
question in `questions` (with its owning section id) but never appends
its id to that section's `question_ids` — only the question-header and
end-of-file save sites append.  Here `q01` is parsed into section `s1`,
yet `s1.question_ids` is empty, while `q02` (saved at end of file) is
appended to `s2`. -/
theorem claim_C7_lost_section_id :
    (parseMarkdown c7Doc).questions.map Prod.fst =
      ["q01".data, "q02".data] ∧
    ((dictGet (parseMarkdown c7Doc).questions "q01".data).map
      Question1.section_id = some "s1".data) ∧
    (parseMarkdown c7Doc).sections.map (fun s => (s.id, s.question_ids)) =
      [("s1".data, []), ("s2".data, ["q02".data])] := by
  exact ⟨by decide, by decide, by decide⟩

theorem optEntryErrs_nil {qid : Chars} :
    ∀ (i : Nat) (opts : List VOpt), optEntryErrs qid i opts = [] →
    ∀ o ∈ opts, o.value?.isSome = true ∧ o.label?.isSome = true := by
  intro i opts
  induction opts generalizing i with
  | nil =>
    intro _ o ho
    exact absurd ho (List.not_mem_nil o)
  | cons o rest ih =>
    intro h o2 ho2
    rw [optEntryErrs] at h
    simp only [List.append_eq_nil] at h
    obtain ⟨⟨h1, h2⟩, h3⟩ := h
    rcases List.mem_cons.mp ho2 with rfl | hmem
    · constructor
      · by_cases hv : o2.value?.isSome = true
        · exact hv
        · rw [if_neg hv] at h1
          cases h1
      · by_cases hv : o2.label?.isSome = true
        · exact hv
        · rw [if_neg hv] at h2
          cases h2
    · exact ih (i + 1) h3 o2 hmem

theorem checkOptions_sound {d : VDoc} {p : Chars × VQuestion}
    (hp : p ∈ d.questions?.getD [])
    (ht : p.2.qtype? = some "single_select".data ∨
          p.2.qtype? = some "multi_select".data)
    (h : checkOptions d = []) :
    p.2.options?.getD [] ≠ [] ∧
    ∀ o ∈ p.2.options?.getD [], o.value?.isSome = true ∧
      o.label?.isSome = true := by
  rw [checkOptions] at h
  have hq := (List.flatMap_eq_nil_iff.mp h) p hp
  rw [if_pos ht] at hq
  simp only [List.append_eq_nil] at hq
  obtain ⟨h1, h2⟩ := hq
  constructor
  · intro hnil
    rw [if_pos hnil] at h1
    cases h1
  · exact optEntryErrs_nil 0 _ h2

theorem validateFile_options {fn : Chars} {q : FQuestion} {t : Chars}
    (ht : q.qtype? = some t)
    (h3 : t = "single_select".data ∨ t = "multi_select".data ∨
          t = "ranked_select".data)
    (h : validateFile fn q = []) :
    ∃ l, q.options? = some (some l) ∧ l ≠ [] := by
  simp only [validateFile, List.append_eq_nil] at h
  obtain ⟨⟨⟨h1, h2⟩, h4⟩, h5⟩ := h
  rw [ht] at h4
  have h4b : (if t = "single_select".data ∨ t = "multi_select".data ∨
      t = "ranked_select".data then
        (match q.options? with
         | none => [FErr.badOptions t]
         | some none => [FErr.badOptions t]
         | some (some l) => if l = [] then [FErr.emptyOptions t] else [])
      else []) = [] := h4
  rw [if_pos h3] at h4b
  cases ho : q.options? with
  | none =>
    rw [ho] at h4b
    cases h4b
  | some o2 =>
    cases o2 with
    | none =>
      rw [ho] at h4b
      cases h4b
    | some l =>
      rw [ho] at h4b
      have h4c : (if l = [] then [FErr.emptyOptions t]
          else ([] : List FErr)) = [] := h4b
      by_cases hl : l = []
      · rw [if_pos hl] at h4c
        cases h4c
      · exact ⟨l, rfl, hl⟩

/-- Claim C8, counterexample: a `ranked_select` question with no
`options` key draws NO error — `_check_options` only lists
`single_select` and `multi_select` — and the document PASSes in full;
and the phase-2 validator accepts a select question whose only option
lacks both `value` and `label` (it never inspects option entries). -/
theorem claim_C8_counterexample :
    validateStatus allChecks false c8Doc = .pass ∧
    checkOptions c8Doc = [] ∧
    c8RankedQ.options?.getD [] = [] ∧
    validateFile "q01.json".data c8FQ = [] ∧
    ({} : VOpt).value? = none := by
  exact ⟨by decide, by decide, rfl, by decide, rfl⟩

/-- Claim C8 (amended): the options check is sound only for
`single_select` and `multi_select` in the schema validator — for those
types a silent check implies a non-empty options array whose entries all
carry `value` and `label` — while `ranked_select` is skipped entirely;
the phase-2 per-file validator covers presence and non-emptiness for all
three select types but never inspects option entries. -/
theorem claim_C8_select_options :
    (∀ (d : VDoc) (p : Chars × VQuestion), p ∈ d.questions?.getD [] →
      (p.2.qtype? = some "single_select".data ∨
       p.2.qtype? = some "multi_select".data) →
      checkOptions d = [] →
      p.2.options?.getD [] ≠ [] ∧
      ∀ o ∈ p.2.options?.getD [], o.value?.isSome = true ∧
        o.label?.isSome = true) ∧
    (∀ (fn : Chars) (q : FQuestion) (t : Chars), q.qtype? = some t →
      (t = "single_select".data ∨ t = "multi_select".data ∨
       t = "ranked_select".data) →
      validateFile fn q = [] →
      ∃ l, q.options? = some (some l) ∧ l ≠ []) := by
  constructor
  · intro d p hp ht h
    exact checkOptions_sound hp ht h
  · intro fn q t ht h3 h
    exact validateFile_options ht h3 h

/-- Witness for claim C8: the soundness theorem applied to concrete
well-formed documents. -/
theorem claim_C8_witness :
    (("q01".data, c8GoodQ).2.options?.getD [] ≠ [] ∧
      ∀ o ∈ ("q01".data, c8GoodQ).2.options?.getD [],
        o.value?.isSome = true ∧ o.label?.isSome = true) ∧
    ∃ l, c8GoodFQ.options? = some (some l) ∧ l ≠ [] :=
  ⟨claim_C8_select_options.1 c8GoodDoc ("q01".data, c8GoodQ) (by decide)
      (Or.inl rfl) (by decide),
   claim_C8_select_options.2 "q01.json".data c8GoodFQ
      "single_select".data rfl (Or.inl rfl) (by decide)⟩

theorem parseQuestionContent_full_tag (bd : BlockData) (sid : Chars) :
    "full".data ∈ (parseQuestionContent bd sid).tags := by
  show "full".data ∈
    (if bd.isLite then ["lite".data, "full".data] else ["full".data])
  split <;> simp

theorem minv_step {questions : List (Chars × Question1)}
    {liteAcc fullAcc : List Chars} (q : Question1)
    (hfull : "full".data ∈ q.tags)
    (ha : ∀ qid q2, dictGet questions qid = some q2 →
      qid ∈ fullAcc ∧ "full".data ∈ q2.tags)
    (hb : ∀ qid ∈ fullAcc, ∃ q2, dictGet questions qid = some q2)
    (hc : ∀ qid ∈ liteAcc, qid ∈ fullAcc)
    (hd : fullAcc.Nodup → ∀ qid q2, dictGet questions qid = some q2 →
      (qid ∈ liteAcc ↔ "lite".data ∈ q2.tags)) :
    (∀ qid q2, dictGet (dictUpdate questions q.id q) qid = some q2 →
      qid ∈ fullAcc ++ [q.id] ∧ "full".data ∈ q2.tags) ∧
    (∀ qid ∈ fullAcc ++ [q.id], ∃ q2,
      dictGet (dictUpdate questions q.id q) qid = some q2) ∧
    (∀ qid ∈ (if "lite".data ∈ q.tags then liteAcc ++ [q.id] else liteAcc),
      qid ∈ fullAcc ++ [q.id]) ∧
    ((fullAcc ++ [q.id]).Nodup → ∀ qid q2,
      dictGet (dictUpdate questions q.id q) qid = some q2 →
      (qid ∈ (if "lite".data ∈ q.tags then liteAcc ++ [q.id] else liteAcc) ↔
        "lite".data ∈ q2.tags)) := by
  refine ⟨?_, ?_, ?_, ?_⟩
  · intro qid q2 hget
    by_cases hq : qid = q.id
    · subst hq
      rw [dictGet_update_self] at hget
      obtain rfl := Option.some.inj hget
      exact ⟨by simp, hfull⟩
    · rw [dictGet_update_ne questions q hq] at hget
      obtain ⟨h1, h2⟩ := ha qid q2 hget
      exact ⟨by simp [h1], h2⟩
  · intro qid hqid
    by_cases hq : qid = q.id
    · subst hq
      exact ⟨q, dictGet_update_self questions q.id q⟩
    · rcases List.mem_append.mp hqid with h | h
      · obtain ⟨q2, hget⟩ := hb qid h
        exact ⟨q2, by rw [dictGet_update_ne questions q hq]; exact hget⟩
      · exact absurd (List.mem_singleton.mp h) hq
  · intro qid hqid
    by_cases hl : "lite".data ∈ q.tags
    · rw [if_pos hl] at hqid
      rcases List.mem_append.mp hqid with h | h
      · exact List.mem_append_left _ (hc qid h)
      · exact List.mem_append_right _ h
    · rw [if_neg hl] at hqid
      exact List.mem_append_left _ (hc qid hqid)
  · intro hnd qid q2 hget
    have hnd2 : fullAcc.Nodup ∧ q.id ∉ fullAcc := by
      have h0 := (List.Perm.nodup_iff (List.perm_append_singleton _ _)).mp hnd
      rw [List.nodup_cons] at h0
      exact ⟨h0.2, h0.1⟩
    by_cases hq : qid = q.id
    · subst hq
      rw [dictGet_update_self] at hget
      obtain rfl := Option.some.inj hget
      have hnotlite : q.id ∉ liteAcc := fun hmem => hnd2.2 (hc _ hmem)
      by_cases hl : "lite".data ∈ q.tags
      · rw [if_pos hl]
        simp only [List.mem_append, List.mem_singleton]
        exact ⟨fun _ => hl, fun _ => Or.inr trivial⟩
      · rw [if_neg hl]
        exact ⟨fun hmem => absurd hmem hnotlite, fun hmem => absurd hmem hl⟩
    · rw [dictGet_update_ne questions q hq] at hget
      have hiff := hd hnd2.1 qid q2 hget
      by_cases hl : "lite".data ∈ q.tags
      · rw [if_pos hl]
        rw [List.mem_append, List.mem_singleton]
        constructor
        · rintro (h | h)
          · exact hiff.mp h
          · exact absurd h hq
        · intro h
          exact Or.inl (hiff.mpr h)
      · rw [if_neg hl]
        exact hiff

theorem mdSave_minv {st : MDState} {b : Bool} (h : MInv st) :
    MInv (mdSave st b) := by
  rw [mdSave]
  cases hb : st.curBlock with
  | none => exact h
  | some bd =>
    cases hs : st.curSectionId with
    | none => exact h
    | some sid =>
      exact minv_step (parseQuestionContent bd sid)
        (parseQuestionContent_full_tag bd sid) h.1 h.2.1 h.2.2.1 h.2.2.2

theorem mdLoop_minv (lines : List Chars) :
    ∀ st : MDState, MInv st → MInv (mdLoop lines st) := by
  induction lines with
  | nil => exact fun st h => h
  | cons l rest ih =>
    intro st h
    rw [mdLoop]
    cases hm : sectionHeaderMatch l with
    | some p =>
      rcases p with ⟨ds, stitle⟩
      exact ih _ (mdSave_minv h)
    | none =>
      cases hq : questionHeaderMatch l with
      | some p =>
        rcases p with ⟨ds, isL, title⟩
        exact ih _ (mdSave_minv h)
      | none =>
        cases hcb : st.curBlock with
        | some bd => exact ih _ h
        | none => exact ih _ h

theorem parseMarkdown_minv (content : Chars) :
    MInv (mdSave (mdLoop (splitNl content)
      { sections := [], questions := [], liteAcc := [], fullAcc := [],
        curSectionId := none, curBlock := none, order := 0 }) true) := by
  apply mdSave_minv
  apply mdLoop_minv
  refine ⟨?_, ?_, ?_, ?_⟩
  · intro qid q hget
    exact Option.noConfusion hget
  · intro qid hqid
    exact absurd hqid (List.not_mem_nil qid)
  · intro qid hqid
    exact absurd hqid (List.not_mem_nil qid)
  · intro _ qid q hget
    exact Option.noConfusion hget

theorem insertByOrder_mem (m : List (Chars × Question2)) (x : Chars) :
    ∀ (l : List Chars) (y : Chars),
      y ∈ insertByOrder m x l ↔ y = x ∨ y ∈ l := by
  intro l
  induction l with
  | nil =>
    intro y
    simp [insertByOrder]
  | cons z zs ih =>
    intro y
    simp only [insertByOrder]
    split
    · simp [List.mem_cons]
    · rw [List.mem_cons, ih, List.mem_cons]
      tauto

theorem sortQids_mem (m : List (Chars × Question2)) (y : Chars) :
    y ∈ sortQidsByOrder m ↔ y ∈ m.map Prod.fst := by
  rw [sortQidsByOrder]
  have hgen : ∀ (ks acc : List Chars) (z : Chars),
      z ∈ ks.foldl (fun acc k => insertByOrder m k acc) acc ↔
        z ∈ acc ∨ z ∈ ks := by
    intro ks
    induction ks with
    | nil =>
      intro acc z
      simp
    | cons k ks2 ih =>
      intro acc z
      rw [List.foldl_cons, ih, insertByOrder_mem]
      rw [List.mem_cons]
      tauto
  rw [hgen]
  simp

theorem aggregate_mem (m : List (Chars × Question2)) (qid : Chars) :
    (qid ∈ (aggregateManifests m).1 ↔
      qid ∈ m.map Prod.fst ∧ "lite".data ∈ tagsOf m qid) ∧
    (qid ∈ (aggregateManifests m).2 ↔
      qid ∈ m.map Prod.fst ∧ "full".data ∈ tagsOf m qid) := by
  constructor <;>
  · simp only [aggregateManifests, List.mem_filter, decide_eq_true_eq,
      sortQids_mem]

/-- Claim C6, counterexample: with two blocks sharing the id `q05`
(first tagged LITE, second FULL), `parse_markdown` keeps only the LAST
record in `questions` — whose tags are `[full]` — yet `q05` sits in the
lite manifest (appended when the first block was saved), so manifest
membership does NOT equal the stored question's manifest tags; the full
manifest also holds `q05` twice. -/
theorem claim_C6_counterexample :
    ((dictGet (parseMarkdown c6Doc).questions "q05".data).map
      Question1.tags = some ["full".data]) ∧
    (parseMarkdown c6Doc).lite.question_ids = ["q05".data] ∧
    (parseMarkdown c6Doc).full.question_ids = ["q05".data, "q05".data] ∧
    ¬ ("lite".data ∈ (["full".data] : List Chars)) := by
  exact ⟨by decide, by decide, by decide, by decide⟩

/-- Claim C6 (amended): after `parse_markdown`, a stored question is in
the full manifest iff `full` is among its tags (always true), and — when
the full manifest has no duplicate ids, i.e. no two blocks reuse one
question number — it is in the lite manifest iff `lite` is among its
tags; the lite manifest is always a sub-collection of the full one and
every manifest id resolves in `questions`.  For the phase-2 aggregator
the round trip is unconditional: an id is in a derived manifest iff it
is a key of the aggregated map and the manifest name is among that
entry's tags. -/
theorem claim_C6_round_trip :
    (∀ content qid q,
      dictGet (parseMarkdown content).questions qid = some q →
      (qid ∈ (parseMarkdown content).full.question_ids ↔
        "full".data ∈ q.tags)) ∧
    (∀ content, (parseMarkdown content).full.question_ids.Nodup →
      ∀ qid q, dictGet (parseMarkdown content).questions qid = some q →
      (qid ∈ (parseMarkdown content).lite.question_ids ↔
        "lite".data ∈ q.tags)) ∧
    (∀ content qid, qid ∈ (parseMarkdown content).lite.question_ids →
      qid ∈ (parseMarkdown content).full.question_ids) ∧
    (∀ content qid, qid ∈ (parseMarkdown content).full.question_ids →
      ∃ q, dictGet (parseMarkdown content).questions qid = some q) ∧
    (∀ files qid,
      (qid ∈ (aggregateManifests (buildQuestionsMap files)).1 ↔
        qid ∈ (buildQuestionsMap files).map Prod.fst ∧
          "lite".data ∈ tagsOf (buildQuestionsMap files) qid) ∧
      (qid ∈ (aggregateManifests (buildQuestionsMap files)).2 ↔
        qid ∈ (buildQuestionsMap files).map Prod.fst ∧
          "full".data ∈ tagsOf (buildQuestionsMap files) qid)) := by
  refine ⟨?_, ?_, ?_, ?_, ?_⟩
  · intro content qid q hget
    exact ⟨fun _ => ((parseMarkdown_minv content).1 qid q hget).2,
      fun _ => ((parseMarkdown_minv content).1 qid q hget).1⟩
  · intro content hnd qid q hget
    exact (parseMarkdown_minv content).2.2.2 hnd qid q hget
  · intro content qid hqid
    exact (parseMarkdown_minv content).2.2.1 qid hqid
  · intro content qid hqid
    exact (parseMarkdown_minv content).2.1 qid hqid
  · intro files qid
    exact aggregate_mem (buildQuestionsMap files) qid

/-- Witness for claim C6: the round-trip theorem applied to a concrete
duplicate-free document and a concrete aggregated file list. -/
theorem claim_C6_witness :
    ("q01".data ∈ (parseMarkdown c6GoodDoc).lite.question_ids ↔
      "lite".data ∈ c6Q.tags) ∧
    ("q01".data ∈ (parseMarkdown c6GoodDoc).full.question_ids ↔
      "full".data ∈ c6Q.tags) ∧
    ("q03".data ∈ (aggregateManifests (buildQuestionsMap [c6AggQ])).1 ↔
      "q03".data ∈ (buildQuestionsMap [c6AggQ]).map Prod.fst ∧
        "lite".data ∈ tagsOf (buildQuestionsMap [c6AggQ]) "q03".data) :=
  ⟨claim_C6_round_trip.2.1 c6GoodDoc (by decide) "q01".data c6Q (by decide),
   claim_C6_round_trip.1 c6GoodDoc "q01".data c6Q (by decide),
   (claim_C6_round_trip.2.2.2.2 [c6AggQ] "q03".data).1⟩
